import Mathlib

/-!
Verification development for the ArcRN architecture-diff engine
(`sema_diff`): a shallow embedding, in Lean 4, of the denoise filter
(`sema_diff/denoise.py`), the significance scorer
(`sema_diff/significance.py`), the Jaccard aligner
(`sema_diff/a2a_jaccard.py`), the module-level change-event generator
(`sema_diff/module_diff_core.py`), the overlap-driven split/merge pass
(`sema_diff/diff_core.py`) and the quality evaluator
(`sema_diff/quality.py`), together with theorems about their behaviour.

Modelling conventions:
- Python `float` values that the engine only ever constructs from exact
  integer ratios are modelled as `ℚ`; `math.log` is kept abstract as a
  function parameter where its numeric value is irrelevant, and points
  where Python would raise (`ZeroDivisionError` / `ValueError`) are
  modelled by an `Option` result.
- Python `set[str]` is `Finset String`; Python `dict` payloads carried in
  the `detail` field of events are association lists `List (String × Val)`
  over a dynamic value type `Val` (insertion order preserved, keys unique
  as constructed by the generators).
- Event ids `"CHG-%04d" % n` are represented by the integer counter value
  `n`; the rendering is injective and order-preserving, and the claims
  about ids are claims about the counter.
- Presentation-only strings (`summary`, `evidence`, quality `notes`) are
  not modelled: no filtering, scoring or id-assignment decision reads
  them.
-/

namespace ArcRN

/-- Dynamic value type for Python dict payloads (`detail` fields, denoise
statistics). `vnone` is Python `None`. -/
inductive Val where
  | vs : String → Val
  | vq : ℚ → Val
  | vi : Int → Val
  | vb : Bool → Val
  | vnone : Val
  | vlist : List Val → Val
  | vdict : List (String × Val) → Val
deriving BEq

/-- Python `dict.get(k)`: first binding of `k` in the association list
(keys are unique in every dict the engine builds, so first = the binding). -/
def getVal (d : List (String × Val)) (k : String) : Option Val :=
  (d.find? (fun p => p.1 == k)).map (·.2)

/-- Python truthiness of a `Val` (`bool(v)`). -/
def Val.truthy : Val → Bool
  | .vs s => !(s == "")
  | .vq q => !(q == 0)
  | .vi i => !(i == 0)
  | .vb b => b
  | .vnone => false
  | .vlist l => !l.isEmpty
  | .vdict l => !l.isEmpty

/-- Python `x or y` on optional dict lookups: `x` if truthy, else `y`
(a missing key reads as `None`, which is falsy). -/
def pyOr (a b : Option Val) : Option Val :=
  match a with
  | some v => if v.truthy then some v else b
  | none => b

/-- Python `float(j)` under the `try/except` of
`_get_from_to_uids_from_event`: numeric values convert, everything else
(including `None`) yields `None`.  String-encoded numbers, which no
generator in the repository produces, are not modelled. -/
def valToFloat : Option Val → Option ℚ
  | some (.vq q) => some q
  | some (.vi i) => some (i : ℚ)
  | some (.vb b) => some (if b then 1 else 0)
  | _ => none

/-- Python `needle in hay` on strings (substring containment). -/
def containsSub (hay needle : String) : Bool :=
  hay.toList.tails.any (fun tl => needle.toList.isPrefixOf tl)

/-- Python `str.strip()` (drop leading/trailing whitespace), on the
character list to keep kernel reduction available. -/
def pyStrip (s : String) : String :=
  ⟨((s.toList.dropWhile Char.isWhitespace).reverse.dropWhile Char.isWhitespace).reverse⟩

/-- Python `str.lower()`. -/
def pyLower (s : String) : String :=
  ⟨s.toList.map Char.toLower⟩

/-- `denoise._base_name`: `uid.split("#", 1)[0].strip()`. -/
def baseName (uid : String) : String :=
  pyStrip ⟨uid.toList.takeWhile (· ≠ '#')⟩

/-- `denoise._looks_unknown`: lowercase, strip, then check whether any
keyword occurs as a substring. -/
def looksUnknown (name : String) (keywords : List String) : Bool :=
  keywords.any (fun k => containsSub (pyLower (pyStrip name)) k)

/-- One change event (`ir.ChangeEvent`).  `id` is the integer counter
behind the rendered `"CHG-%04d"` string; `summary` and `evidence` are
presentation-only and not modelled. -/
structure ChangeEvent where
  id : Nat
  type : String
  confidence : ℚ
  detail : List (String × Val)

/-- `denoise.DenoiseConfig` with the dataclass defaults. -/
structure DenoiseConfig where
  enabled : Bool := true
  drop_module_renamed : Bool := true
  drop_renamed_if_has_other_events_same_pair : Bool := true
  keep_rename_if_only : Bool := false
  keep_rename_min_jaccard : ℚ := 98/100
  keep_rename_min_module_size : Nat := 30
  drop_rename_if_unknown_name : Bool := true
  unknown_name_keywords : List String := ["unknown", "misc", "tmp", "untitled"]

/-- The `DiffConfig.denoise` default built in `config.py` (explicitly sets
the four flags; numeric fields keep the dataclass defaults). -/
def defaultDenoise : DenoiseConfig := {}

/-- `denoise._get_from_to_uids_from_event`: read
`from_module_uid or from_uid` and `to_module_uid or to_uid` from the
detail dict, require both truthy, and attach the converted `jaccard`
value.  Uid values are strings in every event the repository produces;
a truthy non-string value (which would raise `AttributeError` later in
`_base_name`) is outside the model and reads as "no pair". -/
def getFromToUids (ev : ChangeEvent) : Option (String × String × Option ℚ) :=
  let d := ev.detail
  match pyOr (getVal d "from_module_uid") (getVal d "from_uid"),
        pyOr (getVal d "to_module_uid") (getVal d "to_uid") with
  | some (.vs f), some (.vs t) =>
      if f = "" ∨ t = "" then none
      else some (f, t, valToFloat (getVal d "jaccard"))
  | _, _ => none

/-- The `(from_uid, to_uid)` pair key of an event, when extractable. -/
def pairKeyOf (ev : ChangeEvent) : Option (String × String) :=
  (getFromToUids ev).map (fun p => (p.1, p.2.1))

/-- Membership of type `t` in `pair_to_types[key]` after the first pass of
`denoise_changes`: some event of the list contributes `(key, t)`. -/
def pairHasType (changes : List ChangeEvent) (key : String × String) (t : String) : Bool :=
  changes.any (fun ev => pairKeyOf ev == some key && ev.type == t)

/-- `pair_to_jaccard[key]` after the first pass of `denoise_changes`: the
last non-`None` jaccard written for `key` (later events overwrite). -/
def pairJaccard (changes : List ChangeEvent) (key : String × String) : Option ℚ :=
  changes.foldl (fun acc ev =>
    match getFromToUids ev with
    | some (f, t, some j) => if (f, t) = key then some j else acc
    | _ => acc) none

/-- `parse_namedclusters.Module` (the `signature` digest and `occurrence`
are never read by the diff engine and are omitted). -/
structure Module where
  uid : String
  name : String
  files : Finset String
  file_count : Nat
deriving DecidableEq

/-- `parse_namedclusters.NamedClustersIndex`, restricted to the fields the
diff engine reads. -/
structure NamedClustersIndex where
  modules : List Module
  file_to_module_uid : List (String × String)
  duplicate_module_names : List String
  empty_modules : List String

/-- `denoise._module_size` on a `NamedClustersIndex` argument (the shape
`run_diff.py` passes): the index has no `module_uid_to_files` or
`module_uid_to_module` attribute, so the `modules` list is scanned for
the first matching uid; `None` or no match gives 0. -/
def moduleSize (idx : Option NamedClustersIndex) (uid : String) : Nat :=
  match idx with
  | none => 0
  | some i =>
      match i.modules.find? (fun m => m.uid == uid) with
      | some m => m.files.card
      | none => 0

/-- Rule A of `denoise_changes`: the pair also has a `module_changed` or
`module_component_changed` event. -/
def ruleA (cfg : DenoiseConfig) (pt : String × String → String → Bool)
    (key : String × String) : Bool :=
  cfg.drop_renamed_if_has_other_events_same_pair &&
    (pt key "module_changed" || pt key "module_component_changed")

/-- Rule B of `denoise_changes`: either endpoint's base name looks like a
junk name. -/
def ruleB (cfg : DenoiseConfig) (key : String × String) : Bool :=
  cfg.drop_rename_if_unknown_name &&
    (looksUnknown (baseName key.1) cfg.unknown_name_keywords ||
     looksUnknown (baseName key.2) cfg.unknown_name_keywords)

/-- Rule C of `denoise_changes` with `keep_rename_if_only` enabled: keep a
rename-only pair iff its jaccard (the event's own, else the pair map's)
reaches `keep_rename_min_jaccard` and either module is large enough. -/
def ruleCKeep (cfg : DenoiseConfig) (pj : String × String → Option ℚ)
    (szA szB : String → Nat) (key : String × String) (j : Option ℚ) : Bool :=
  match (match j with | some v => some v | none => pj key) with
  | none => false
  | some jj =>
      if jj < cfg.keep_rename_min_jaccard then false
      else decide (cfg.keep_rename_min_module_size ≤ max (szA key.1) (szB key.2))

/-- The per-event keep decision of the second pass of `denoise_changes`
(`enabled` and `drop_module_renamed` both true), parameterised by the
first-pass maps `pt`/`pj` and the module-size functions.  The nested `if`s
mirror the `continue`/`append` decisions of the Python loop. -/
def keepEvent (cfg : DenoiseConfig) (pt : String × String → String → Bool)
    (pj : String × String → Option ℚ) (szA szB : String → Nat)
    (ev : ChangeEvent) : Bool :=
  if ev.type ≠ "module_renamed" then true
  else
    match getFromToUids ev with
    | none => true
    | some (f, t, j) =>
      let key := (f, t)
      if ruleA cfg pt key then false
      else if ruleB cfg key then false
      else if !cfg.keep_rename_if_only then false
      else ruleCKeep cfg pj szA szB key j

/-- `denoise.denoise_changes`.  The surviving events are the input events
that `keepEvent` accepts, in order (the Python loop appends each kept
event unchanged); the second component is the `stats` dict.  Dropped ids
are rendered `"CHG-%04d"` in Python and kept as counters here. -/
def denoiseChanges (changes : List ChangeEvent)
    (namedA namedB : Option NamedClustersIndex) (cfg : DenoiseConfig) :
    List ChangeEvent × List (String × Val) :=
  if !(cfg.enabled && cfg.drop_module_renamed) then
    (changes, [("enabled", .vb cfg.enabled), ("dropped", .vi 0),
               ("kept", .vi changes.length)])
  else
    let keep := keepEvent cfg (pairHasType changes) (pairJaccard changes)
        (moduleSize namedA) (moduleSize namedB)
    let filtered := changes.filter keep
    let droppedIds := (changes.filter (fun ev => !keep ev)).map (·.id)
    (filtered,
     [("enabled", .vb cfg.enabled), ("strategy", .vs "step1_rename_filter"),
      ("input_events", .vi changes.length),
      ("output_events", .vi filtered.length),
      ("dropped", .vi droppedIds.length),
      ("dropped_ids_sample", .vlist (droppedIds.take 20 |>.map (Val.vi ∘ Int.ofNat)))])

/-- Round to the nearest integer, ties to even — the rounding of Python's
built-in `round` (the engine only ever rounds exact integer ratios, so
binary-float representation effects do not arise in the model). -/
def roundHalfEven (x : ℚ) : ℤ :=
  let f := ⌊x⌋
  let r := x - f
  if r < 1/2 then f
  else if 1/2 < r then f + 1
  else if f % 2 = 0 then f else f + 1

/-- Python `round(x, d)`. -/
def pyRound (d : Nat) (x : ℚ) : ℚ :=
  (roundHalfEven (x * 10 ^ d) : ℚ) / 10 ^ d

/-- The weight dictionary of `significance.DEFAULT_WEIGHTS`. -/
structure Weights where
  struct : ℚ
  scope : ℚ
  layer : ℚ
  semantic : ℚ

def DEFAULT_WEIGHTS : Weights := ⟨45/100, 25/100, 20/100, 10/100⟩

/-- Python `float(detail.get(k, d))` for the numeric detail reads of the
significance scorer: a present numeric value converts, a missing key
gives the default.  A present non-numeric value would raise `TypeError`
and is outside the model. -/
def numOrDefault (v : Option Val) (d : ℚ) : ℚ :=
  match v with
  | some (.vq q) => q
  | some (.vi i) => (i : ℚ)
  | some (.vb b) => if b then 1 else 0
  | _ => d

/-- `detail.get(k, "")` read as a string (`layer` factor); the engine only
stores strings under the component keys. -/
def strOrEmpty (v : Option Val) : String :=
  match v with
  | some (.vs s) => s
  | _ => ""

/-- `x.get(k, {})` read as a dict (`semantics` subtree). -/
def dictOrEmpty (v : Option Val) : List (String × Val) :=
  match v with
  | some (.vdict l) => l
  | _ => []

/-- `len(x.get(k, []))` read as a list length. -/
def listLen (v : Option Val) : Nat :=
  match v with
  | some (.vlist l) => l.length
  | _ => 0

/-- The `structural` factor of `significance.compute_architecture_significance`
(lines 22–29): `delta_ratio` read from the TOP LEVEL of `detail` for
`module_changed`, 1.0 for added/removed, 0.6 for component change, and
`none` for every other type (the scorer then returns 0.0 early). -/
def structuralFactor (etype : String) (detail : List (String × Val)) : Option ℚ :=
  if etype = "module_changed" then some (numOrDefault (getVal detail "delta_ratio") 0)
  else if etype = "module_added" ∨ etype = "module_removed" then some 1
  else if etype = "module_component_changed" then some (6/10)
  else none

/-- The `file_count` read of the significance scorer:
`max(detail.get("file_count_a", 0), detail.get("file_count_b", 0), detail.get("file_count", 0))`. -/
def fileCountOf (detail : List (String × Val)) : ℚ :=
  max (numOrDefault (getVal detail "file_count_a") 0)
    (max (numOrDefault (getVal detail "file_count_b") 0)
         (numOrDefault (getVal detail "file_count") 0))

/-- `significance.compute_architecture_significance`.  `log` abstracts
`math.log` on positive arguments (its numeric value never decides a
branch).  The result is `none` exactly where Python raises: `ValueError`
when an argument of `math.log` is ≤ 0, and `ZeroDivisionError` when
`max_files_in_project = 0`, since `math.log(1 + m) = 0.0` iff `m = 0`.
For non-structural types Python returns `0.0` before touching `scope`. -/
def computeArchitectureSignificance (log : ℚ → ℚ) (w : Weights)
    (ev : ChangeEvent) (maxFilesInProject : Int) : Option ℚ :=
  let detail := ev.detail
  match structuralFactor ev.type detail with
  | none => some 0
  | some structural =>
    let fileCount := fileCountOf detail
    if 1 + fileCount ≤ 0 then none
    else if maxFilesInProject ≤ 0 then none
    else
      let scope := log (1 + fileCount) / log (1 + (maxFilesInProject : ℚ))
      let layer : ℚ :=
        if ev.type = "module_component_changed" then
          let fromC := strOrEmpty (getVal detail "from_component")
          let toC := strOrEmpty (getVal detail "to_component")
          if fromC ≠ toC then
            (if containsSub fromC "Core" || containsSub fromC "Infrastructure" then 1 else 6/10)
          else 0
        else 0
      let sem := dictOrEmpty (getVal detail "semantics")
      let code := dictOrEmpty (getVal sem "code")
      let arch := dictOrEmpty (getVal sem "arch")
      let added := listLen (getVal code "added_files")
      let removed := listLen (getVal code "removed_files")
      let semantic0 : ℚ :=
        if added ≠ 0 ∨ removed ≠ 0 then (if removed ≤ added then 6/10 else 4/10) else 0
      let semantic1 : ℚ :=
        if !(getVal arch "from_component_summary" == getVal arch "to_component_summary")
        then semantic0 + 3/10 else semantic0
      let semantic2 : ℚ :=
        if !(getVal arch "patterns_a_top" == getVal arch "patterns_b_top")
        then semantic1 + 3/10 else semantic1
      let semantic := min 1 semantic2
      some (pyRound 4
        (w.struct * structural + w.scope * scope + w.layer * layer + w.semantic * semantic))

/-- `a2a_jaccard.jaccard`. -/
def jaccard (a b : Finset String) : ℚ :=
  if a = ∅ ∧ b = ∅ then 1
  else if a = ∅ ∨ b = ∅ then 0
  else
    let inter := (a ∩ b).card
    let union := (a ∪ b).card
    if union ≠ 0 then (inter : ℚ) / union else 0

/-- `a2a_jaccard.ModuleMapping`. -/
structure ModuleMapping where
  from_uid : String
  to_uid : String
  score : ℚ

/-- `a2a_jaccard.A2AAlignment`. -/
structure A2AAlignment where
  mapping : List ModuleMapping
  removed : List String
  added : List String
  global_similarity : ℚ
  meta : List (String × Val)

/-- `a2a_jaccard.build_module_files`: `{m.uid: set(m.files) for m in index.modules}`
as an insertion-ordered association list (uids are unique per snapshot). -/
def buildModuleFiles (idx : NamedClustersIndex) : List (String × Finset String) :=
  idx.modules.map (fun m => (m.uid, m.files))

/-- The candidate edge list `weights` of `a2a_jaccard.align_modules_by_jaccard`:
`(i, j) ↦ jaccard` for every pair with weight strictly above
`min_edge_weight`, in the enumeration order of the two uid lists. -/
def buildWeights (modulesA modulesB : List (String × Finset String))
    (minEdgeWeight : ℚ) : List ((Nat × Nat) × ℚ) :=
  modulesA.enum.flatMap (fun ia =>
    modulesB.enum.filterMap (fun jb =>
      let w := jaccard ia.2.2 jb.2.2
      if minEdgeWeight < w then some ((ia.1, jb.1), w) else none))

/-- The greedy scan of `a2a_jaccard._greedy_matching` after sorting:
accept an edge iff neither endpoint is already used. -/
def greedyGo : List ((Nat × Nat) × ℚ) → List Nat → List Nat → List (Nat × Nat × ℚ)
  | [], _, _ => []
  | ((i, j), w) :: rest, usedA, usedB =>
    if i ∈ usedA ∨ j ∈ usedB then greedyGo rest usedA usedB
    else (i, j, w) :: greedyGo rest (i :: usedA) (j :: usedB)

/-- `a2a_jaccard._greedy_matching`: stable sort of the edges by weight
descending (`list.sort(key=weight, reverse=True)` keeps the input order
of equal-weight edges — insertion sort with `≥` has exactly that
behaviour), then the greedy scan. -/
def greedyMatching (weights : List ((Nat × Nat) × ℚ)) : List (Nat × Nat × ℚ) :=
  greedyGo (List.insertionSort (fun x y => x.2 ≥ y.2) weights) [] []

/-- `a2a_jaccard.align_modules_by_jaccard` on the `greedy` engine (the
`igraph`/`networkx` engines are external libraries, outside the
repository). -/
def alignModulesByJaccardGreedy (modulesA modulesB : List (String × Finset String))
    (minEdgeWeight : ℚ) : A2AAlignment :=
  let uidsA := modulesA.map (·.1)
  let uidsB := modulesB.map (·.1)
  let nA := uidsA.length
  let nB := uidsB.length
  let weights := buildWeights modulesA modulesB minEdgeWeight
  let pairs := greedyMatching weights
  let mapping := pairs.map (fun p => ModuleMapping.mk (uidsA.getD p.1 "") (uidsB.getD p.2.1 "") p.2.2)
  let matchedA := mapping.map (·.from_uid)
  let matchedB := mapping.map (·.to_uid)
  let removed := List.insertionSort (· ≤ ·) (uidsA.filter (fun ua => !matchedA.contains ua))
  let added := List.insertionSort (· ≤ ·) (uidsB.filter (fun ub => !matchedB.contains ub))
  let scoreSum := (pairs.map (·.2.2)).sum
  let denom : ℚ := if 0 < max nA nB then (max nA nB : ℚ) else 1
  { mapping := List.insertionSort (fun x y => x.score ≥ y.score) mapping
    removed := removed
    added := added
    global_similarity := pyRound 6 (scoreSum / denom)
    meta := [("engine", .vs "greedy"), ("nA", .vi nA), ("nB", .vi nB),
             ("edges", .vi weights.length), ("min_edge_weight", .vq minEdgeWeight)] }

/-- `parse_clustercomponent.ComponentMapping`, restricted to the fields
the diff engine reads. -/
structure ComponentMapping where
  module_uid_to_component : List (String × String)
  unresolved : List String

/-- `parse_codesem.CodeSemIndex`. -/
structure CodeSemIndex where
  file_to_desc : List (String × String)

/-- `parse_archsem.ArchSemIndex`. -/
structure ArchSemIndex where
  component_to_summary : List (String × String)
  patterns : List String

/-- Lookup in a string-keyed dict modelled as an association list. -/
def lookupStr (l : List (String × String)) (k : String) : Option String :=
  (l.find? (fun p => p.1 == k)).map (·.2)

/-- `module_diff_core._base_name`: the part of the uid before the first
`#` (the whole uid when there is none); no stripping, unlike the
homonymous helper in `denoise.py`. -/
def baseNameMDC (uid : String) : String :=
  ⟨uid.toList.takeWhile (· ≠ '#')⟩

/-- `module_diff_core._index_modules_by_uid` lookup: uids are unique per
snapshot, so the first match is the dict entry. -/
def lookupMod (mods : List Module) (uid : String) : Option Module :=
  mods.find? (fun m => m.uid == uid)

/-- Sorted list of a file set (Python `sorted(list(s))`). -/
def sortedFiles (s : Finset String) : List String :=
  s.sort (· ≤ ·)

/-- The `module_removed` events of `build_module_level_events` (loop over
`alignment.removed`, skipping uids absent from the A index), with the id
counter threaded through. -/
def removedEvents (aMod : List Module) : List String → Nat → List ChangeEvent × Nat
  | [], n => ([], n)
  | uid :: rest, n =>
    match lookupMod aMod uid with
    | none => removedEvents aMod rest n
    | some m =>
      let ev : ChangeEvent :=
        { id := n, type := "module_removed", confidence := 95/100,
          detail := [("module_uid", .vs uid), ("module_name", .vs (baseNameMDC uid)),
                     ("file_count", .vi m.file_count)] }
      let (evs, n') := removedEvents aMod rest (n + 1)
      (ev :: evs, n')

/-- The `module_added` events of `build_module_level_events` (loop over
`alignment.added`). -/
def addedEvents (bMod : List Module) : List String → Nat → List ChangeEvent × Nat
  | [], n => ([], n)
  | uid :: rest, n =>
    match lookupMod bMod uid with
    | none => addedEvents bMod rest n
    | some m =>
      let ev : ChangeEvent :=
        { id := n, type := "module_added", confidence := 95/100,
          detail := [("module_uid", .vs uid), ("module_name", .vs (baseNameMDC uid)),
                     ("file_count", .vi m.file_count)] }
      let (evs, n') := addedEvents bMod rest (n + 1)
      (ev :: evs, n')

/-- The `arch` context dict attached to a `module_changed` event
(`build_module_level_events` lines 205–226). -/
def archCtx (compA compB : Option ComponentMapping)
    (archsemA archsemB : Option ArchSemIndex) (ma mb : Module) :
    List (String × Val) :=
  match compA, compB with
  | some ca?, some cb? =>
    if archsemA.isSome || archsemB.isSome then
      let caO := lookupStr ca?.module_uid_to_component ma.uid
      let cbO := lookupStr cb?.module_uid_to_component mb.uid
      let part1 : List (String × Val) :=
        match caO with
        | some ca =>
          if ca ≠ "" then
            ("from_component", Val.vs ca) ::
            (match archsemA with
             | some sa =>
               match lookupStr sa.component_to_summary ca with
               | some s => if s ≠ "" then [("from_component_summary", Val.vs s)] else []
               | none => []
             | none => [])
          else []
        | none => []
      let part2 : List (String × Val) :=
        match cbO with
        | some cb =>
          if cb ≠ "" then
            ("to_component", Val.vs cb) ::
            (match archsemB with
             | some sb =>
               match lookupStr sb.component_to_summary cb with
               | some s => if s ≠ "" then [("to_component_summary", Val.vs s)] else []
               | none => []
             | none => [])
          else []
        | none => []
      let part3 : List (String × Val) :=
        (match archsemA with
         | some sa => if !sa.patterns.isEmpty then [("patterns_a_top", Val.vlist (sa.patterns.take 8 |>.map Val.vs))] else []
         | none => []) ++
        (match archsemB with
         | some sb => if !sb.patterns.isEmpty then [("patterns_b_top", Val.vlist (sb.patterns.take 8 |>.map Val.vs))] else []
         | none => [])
      part1 ++ part2 ++ part3
    else []
  | _, _ => []

/-- The per-file semantic annotations drawn from a `CodeSemIndex` for a
top-K file sample (`build_module_level_events` lines 191–203). -/
def codeDescs (cs : Option CodeSemIndex) (files : List String) : List Val :=
  match cs with
  | none => []
  | some c => files.filterMap (fun fp =>
      match lookupStr c.file_to_desc fp with
      | some desc => if desc ≠ "" then some (Val.vdict [("path", .vs fp), ("desc", .vs desc)]) else none
      | none => none)

/-- The number of added files between a matched pair:
`len(sorted(list(files_b - files_a)))`. -/
def addedCount (ma mb : Module) : Nat := (sortedFiles (mb.files \ ma.files)).length

/-- The number of removed files between a matched pair. -/
def removedCount (ma mb : Module) : Nat := (sortedFiles (ma.files \ mb.files)).length

/-- `delta = len(added_files) + len(removed_files)` for a matched pair. -/
def pairDelta (ma mb : Module) : Nat := addedCount ma mb + removedCount ma mb

/-- The `module_renamed` block of the matched-pair loop body
(`build_module_level_events` section 2.1). -/
def renamedEventsForPair (mm : ModuleMapping) (ma mb : Module) (n : Nat) :
    List ChangeEvent × Nat :=
  let nameA := baseNameMDC ma.uid
  let nameB := baseNameMDC mb.uid
  if nameA ≠ nameB then
    ([ChangeEvent.mk n "module_renamed" (max (6/10) (min (95/100) mm.score))
      [("from_module_uid", .vs ma.uid), ("to_module_uid", .vs mb.uid),
       ("from_name", .vs nameA), ("to_name", .vs nameB),
       ("jaccard", .vq (pyRound 6 mm.score))]], n + 1)
  else ([], n)

/-- The `module_component_changed` block of the matched-pair loop body
(section 2.2): both components known (truthy) and different. -/
def compEventsForPair (compA compB : Option ComponentMapping)
    (mm : ModuleMapping) (ma mb : Module) (n : Nat) : List ChangeEvent × Nat :=
  match compA, compB with
  | some ca?, some cb? =>
    match lookupStr ca?.module_uid_to_component ma.uid,
          lookupStr cb?.module_uid_to_component mb.uid with
    | some ca, some cb =>
      if ca ≠ "" ∧ cb ≠ "" ∧ ca ≠ cb then
        ([ChangeEvent.mk n "module_component_changed" (65/100)
          [("from_module_uid", .vs ma.uid), ("to_module_uid", .vs mb.uid),
           ("from_component", .vs ca), ("to_component", .vs cb),
           ("jaccard", .vq (pyRound 6 mm.score))]], n + 1)
      else ([], n)
    | _, _ => ([], n)
  | _, _ => ([], n)

/-- The `delta_ratio` of a matched pair:
`delta / (len(files_a | files_b) or 1)`. -/
def pairDeltaRatio (ma mb : Module) : ℚ :=
  let unionSz := (ma.files ∪ mb.files).card
  let unionSz := if unionSz = 0 then 1 else unionSz
  (pairDelta ma mb : ℚ) / (unionSz : ℚ)

/-- The `module_changed` confidence:
`max(0.55, min(0.95, score * (1 - 0.5 * delta_ratio)))`. -/
def changedConfidence (score : ℚ) (ma mb : Module) : ℚ :=
  max (55/100) (min (95/100) (score * (1 - 1/2 * pairDeltaRatio ma mb)))

/-- The `module_changed` event built for a matched pair (the appended
`ChangeEvent(...)` of section 2.3). -/
def changedEvent (compA compB : Option ComponentMapping)
    (codesemA codesemB : Option CodeSemIndex) (archsemA archsemB : Option ArchSemIndex)
    (topKFiles : Nat) (score : ℚ) (ma mb : Module) (n : Nat) : ChangeEvent :=
  let addedFiles := sortedFiles (mb.files \ ma.files)
  let removedFiles := sortedFiles (ma.files \ mb.files)
  let retainedFiles := sortedFiles (ma.files ∩ mb.files)
  let addedTop := addedFiles.take topKFiles
  let removedTop := removedFiles.take topKFiles
  ChangeEvent.mk n "module_changed" (changedConfidence score ma mb)
    [("from_module_uid", .vs ma.uid), ("to_module_uid", .vs mb.uid),
     ("from_name", .vs (baseNameMDC ma.uid)), ("to_name", .vs (baseNameMDC mb.uid)),
     ("jaccard", .vq (pyRound 6 score)),
     ("counts", .vdict
       [("added_files", .vi addedFiles.length),
        ("removed_files", .vi removedFiles.length),
        ("retained_files", .vi retainedFiles.length),
        ("file_count_a", .vi ma.file_count),
        ("file_count_b", .vi mb.file_count),
        ("delta", .vi (pairDelta ma mb)),
        ("delta_ratio", .vq (pyRound 6 (pairDeltaRatio ma mb)))]),
     ("examples", .vdict
       [("added_files_top", .vlist (addedTop.map Val.vs)),
        ("removed_files_top", .vlist (removedTop.map Val.vs))]),
     ("semantics", .vdict
       [("code", .vdict
         [("added_files", .vlist (codeDescs codesemB addedTop)),
          ("removed_files", .vlist (codeDescs codesemA removedTop))]),
        ("arch", .vdict (archCtx compA compB archsemA archsemB ma mb))])]

/-- The `module_changed` block of the matched-pair loop body (section
2.3), emitted when `delta >= min_file_delta`. -/
def changedEventsForPair (compA compB : Option ComponentMapping)
    (codesemA codesemB : Option CodeSemIndex) (archsemA archsemB : Option ArchSemIndex)
    (topKFiles : Nat) (minFileDelta : Nat) (mm : ModuleMapping) (ma mb : Module)
    (n : Nat) : List ChangeEvent × Nat :=
  if minFileDelta ≤ pairDelta ma mb then
    ([changedEvent compA compB codesemA codesemB archsemA archsemB topKFiles
        mm.score ma mb n], n + 1)
  else ([], n)

/-- The events emitted for one matched pair by `build_module_level_events`
(loop body, lines 105–269): up to `module_renamed`,
`module_component_changed` and `module_changed`, in that order, with the
id counter threaded through. -/
def pairEvents (aMod bMod : List Module) (compA compB : Option ComponentMapping)
    (codesemA codesemB : Option CodeSemIndex) (archsemA archsemB : Option ArchSemIndex)
    (topKFiles : Nat) (minFileDelta : Nat) (minJaccardToAccept : ℚ)
    (mm : ModuleMapping) (n : Nat) : List ChangeEvent × Nat :=
  match lookupMod aMod mm.from_uid, lookupMod bMod mm.to_uid with
  | some ma, some mb =>
    if mm.score < minJaccardToAccept then ([], n)
    else
      let (renamedEvs, n1) := renamedEventsForPair mm ma mb n
      let (compEvs, n2) := compEventsForPair compA compB mm ma mb n1
      let (changedEvs, n3) := changedEventsForPair compA compB codesemA codesemB
          archsemA archsemB topKFiles minFileDelta mm ma mb n2
      (renamedEvs ++ compEvs ++ changedEvs, n3)
  | _, _ => ([], n)

/-- The matched-pair loop of `build_module_level_events`. -/
def mappedEvents (aMod bMod : List Module) (compA compB : Option ComponentMapping)
    (codesemA codesemB : Option CodeSemIndex) (archsemA archsemB : Option ArchSemIndex)
    (topKFiles : Nat) (minFileDelta : Nat) (minJaccardToAccept : ℚ) :
    List ModuleMapping → Nat → List ChangeEvent × Nat
  | [], n => ([], n)
  | mm :: rest, n =>
    let (evs, n') := pairEvents aMod bMod compA compB codesemA codesemB archsemA archsemB
        topKFiles minFileDelta minJaccardToAccept mm n
    let (restEvs, n'') := mappedEvents aMod bMod compA compB codesemA codesemB archsemA archsemB
        topKFiles minFileDelta minJaccardToAccept rest n'
    (evs ++ restEvs, n'')

/-- `module_diff_core.build_module_level_events`: removed events, then
added events, then per-pair events, with one id counter threaded through
all three loops; returns the events and the final counter value. -/
def buildModuleLevelEvents (idxA idxB : NamedClustersIndex)
    (compA compB : Option ComponentMapping) (alignment : A2AAlignment)
    (nextIdStart : Nat) (topKFiles : Nat) (minFileDelta : Nat)
    (minJaccardToAccept : ℚ)
    (codesemA codesemB : Option CodeSemIndex) (archsemA archsemB : Option ArchSemIndex) :
    List ChangeEvent × Nat :=
  let aMod := idxA.modules
  let bMod := idxB.modules
  let (rEvs, n1) := removedEvents aMod alignment.removed nextIdStart
  let (aEvs, n2) := addedEvents bMod alignment.added n1
  let (mEvs, n3) := mappedEvents aMod bMod compA compB codesemA codesemB archsemA archsemB
      topKFiles minFileDelta minJaccardToAccept alignment.mapping n2
  (rEvs ++ aEvs ++ mEvs, n3)

/-- `config.DiffConfig` (thresholds; the parsing-related booleans are not
read by the functions modelled here). -/
structure DiffConfig where
  rename_overlap : ℚ := 9/10
  split_merge_overlap : ℚ := 3/10
  coverage_threshold : ℚ := 8/10
  module_count_delta_warn_ratio : ℚ := 3/10
  denoise : DenoiseConfig := defaultDenoise

def defaultConfig : DiffConfig := {}

/-- `diff_core.Snapshot` (the `version_label` is presentation-only). -/
structure Snapshot where
  named : NamedClustersIndex
  comp : ComponentMapping
  files : Finset String
  modules : List Module
  file_to_module : List (String × String)
  module_to_component : List (String × String)

/-- `diff_core.build_snapshot`. -/
def buildSnapshot (named : NamedClustersIndex) (comp : ComponentMapping) : Snapshot :=
  { named := named
    comp := comp
    files := (named.file_to_module_uid.map (·.1)).toFinset
    modules := named.modules
    file_to_module := named.file_to_module_uid
    module_to_component := comp.module_uid_to_component }

/-- `diff_core._overlap` (containment: intersection over min size). -/
def overlapDC (a b : Finset String) : ℚ :=
  if a = ∅ ∨ b = ∅ then 0
  else
    let denom := min a.card b.card
    if 0 < denom then ((a ∩ b).card : ℚ) / denom else 0

/-- `diff_core._jaccard`. -/
def jaccardDC (a b : Finset String) : ℚ :=
  if a = ∅ ∧ b = ∅ then 1
  else if a = ∅ ∨ b = ∅ then 0
  else
    let union := (a ∪ b).card
    if 0 < union then ((a ∩ b).card : ℚ) / union else 0

/-- `diff_core.ModulePairScore`. -/
structure ModulePairScore where
  uid_a : String
  uid_b : String
  overlap : ℚ
  jaccard : ℚ
  inter_count : Nat

/-- Descending lexicographic order on `(overlap, jaccard, inter_count)` —
the sort key `key=lambda s: (s.overlap, s.jaccard, s.inter_count)` with
`reverse=True`; reflexive on ties, so insertion sort with it is the
stable descending sort Python performs. -/
def scoreGE (s t : ModulePairScore) : Prop :=
  t.overlap < s.overlap ∨
  (t.overlap = s.overlap ∧
    (t.jaccard < s.jaccard ∨ (t.jaccard = s.jaccard ∧ t.inter_count ≤ s.inter_count)))

instance : DecidableRel scoreGE := fun s t => by unfold scoreGE; infer_instance

/-- `diff_core.align_modules`: all pairs with nonzero intersection or
overlap, sorted by `(overlap, jaccard, inter_count)` descending. -/
def alignModules (modsA modsB : List Module) : List ModulePairScore :=
  let scores := modsA.flatMap (fun ma =>
    modsB.filterMap (fun mb =>
      let inter := (ma.files ∩ mb.files).card
      let ov := overlapDC ma.files mb.files
      let jac := jaccardDC ma.files mb.files
      if inter = 0 ∧ ov = 0 then none
      else some (ModulePairScore.mk ma.uid mb.uid ov jac inter)))
  List.insertionSort scoreGE scores

/-- The scan of `diff_core.greedy_match` (only the matched list is used by
`infer_module_events`). -/
def greedyMatchDC : List ModulePairScore → List String → List String → List ModulePairScore
  | [], _, _ => []
  | s :: rest, usedA, usedB =>
    if s.uid_a ∈ usedA ∨ s.uid_b ∈ usedB then greedyMatchDC rest usedA usedB
    else s :: greedyMatchDC rest (s.uid_a :: usedA) (s.uid_b :: usedB)

/-- First occurrence of each key, in order — the iteration order of a
Python dict populated by `defaultdict(list)` appends. -/
def firstKeysAux : List String → List String → List String
  | [], _ => []
  | a :: as, seen =>
    if a ∈ seen then firstKeysAux as seen else a :: firstKeysAux as (a :: seen)

def firstKeys (l : List String) : List String := firstKeysAux l []

/-- The rename loop of `diff_core.infer_module_events` (section 1). -/
def renameSection (modA modB : List Module) (cfg : DiffConfig) :
    List ModulePairScore → Nat → List ChangeEvent × Nat
  | [], n => ([], n)
  | p :: rest, n =>
    if cfg.rename_overlap ≤ p.overlap then
      match lookupMod modA p.uid_a, lookupMod modB p.uid_b with
      | some ma, some mb =>
        if ma.name ≠ mb.name then
          let ev : ChangeEvent :=
            { id := n, type := "module_renamed", confidence := min 1 (max 0 p.overlap),
              detail := [("from_module_uid", .vs ma.uid), ("to_module_uid", .vs mb.uid),
                         ("from_name", .vs ma.name), ("to_name", .vs mb.name),
                         ("overlap", .vq (pyRound 4 p.overlap)),
                         ("jaccard", .vq (pyRound 4 p.jaccard)),
                         ("intersect_files", .vi p.inter_count)] }
          let (evs, n') := renameSection modA modB cfg rest (n + 1)
          (ev :: evs, n')
        else renameSection modA modB cfg rest n
      | _, _ => renameSection modA modB cfg rest n
    else renameSection modA modB cfg rest n

/-- The qualifying-candidate list `cand_a_to_bs[uid_a]` of
`infer_module_events` (document order preserved). -/
def splitPairs (qual : List ModulePairScore) (uidA : String) : List ModulePairScore :=
  qual.filter (fun s => s.uid_a == uidA)

/-- `pairs_sorted`: the top five candidates by `(overlap, jaccard, inter)`
descending. -/
def splitPairsSorted (qual : List ModulePairScore) (uidA : String) : List ModulePairScore :=
  (List.insertionSort scoreGE (splitPairs qual uidA)).take 5

/-- `targets`: the top-five candidate B-modules that resolve. -/
def splitTargets (modB : List Module) (qual : List ModulePairScore) (uidA : String) :
    List Module :=
  (splitPairsSorted qual uidA).filterMap (fun p => lookupMod modB p.uid_b)

/-- `union_files` over the top-five candidates. -/
def splitUnion (modB : List Module) (qual : List ModulePairScore) (uidA : String) :
    Finset String :=
  (splitPairsSorted qual uidA).foldl (fun acc p =>
    match lookupMod modB p.uid_b with
    | some mb => acc ∪ mb.files
    | none => acc) ∅

/-- `coverage` of the A-module's files by the top-five candidates' union. -/
def splitCoverage (modB : List Module) (qual : List ModulePairScore) (uidA : String)
    (ma : Module) : ℚ :=
  if ma.files ≠ ∅ then ((ma.files ∩ splitUnion modB qual uidA).card : ℚ) / ma.files.card
  else 0

/-- The `overlaps` evidence entries of a split event. -/
def splitOverlapsList (modB : List Module) (qual : List ModulePairScore) (uidA : String) :
    List Val :=
  (splitPairsSorted qual uidA).filterMap (fun p =>
    match lookupMod modB p.uid_b with
    | some _ => some (Val.vdict [("to", .vs p.uid_b),
        ("overlap", .vq (pyRound 4 p.overlap)), ("intersect_files", .vi p.inter_count)])
    | none => none)

/-- The body run for one A-uid by the split loop of
`infer_module_events` (section 2). -/
def splitEventFor (modA modB : List Module) (cfg : DiffConfig)
    (qual : List ModulePairScore) (uidA : String) (n : Nat) : List ChangeEvent × Nat :=
  match lookupMod modA uidA with
  | none => ([], n)
  | some ma =>
    if (splitPairs qual uidA).length < 2 then ([], n)
    else if (splitTargets modB qual uidA).length < 2 then ([], n)
    else if cfg.coverage_threshold ≤ splitCoverage modB qual uidA ma then
      ([ChangeEvent.mk n "module_split"
          (pyRound 4 (min (85/100) (max (3/10) (splitCoverage modB qual uidA ma))))
        [("from_module_uid", .vs ma.uid),
         ("to_module_uids", .vlist ((splitTargets modB qual uidA).map (fun t => Val.vs t.uid))),
         ("coverage", .vq (pyRound 4 (splitCoverage modB qual uidA ma))),
         ("overlaps", .vlist (splitOverlapsList modB qual uidA))]], n + 1)
    else ([], n)

/-- The split loop of `infer_module_events`, over the A-uids in the
first-appearance order of the qualifying candidate list. -/
def splitSection (modA modB : List Module) (cfg : DiffConfig)
    (qual : List ModulePairScore) : List String → Nat → List ChangeEvent × Nat
  | [], n => ([], n)
  | uidA :: rest, n =>
    let (evs, n') := splitEventFor modA modB cfg qual uidA n
    let (restEvs, n'') := splitSection modA modB cfg qual rest n'
    (evs ++ restEvs, n'')

/-- The qualifying-candidate list `cand_b_to_as[uid_b]`. -/
def mergePairs (qual : List ModulePairScore) (uidB : String) : List ModulePairScore :=
  qual.filter (fun s => s.uid_b == uidB)

/-- The merge-side `pairs_sorted`: top five candidates. -/
def mergePairsSorted (qual : List ModulePairScore) (uidB : String) : List ModulePairScore :=
  (List.insertionSort scoreGE (mergePairs qual uidB)).take 5

/-- `sources`: the top-five candidate A-modules that resolve. -/
def mergeSources (modA : List Module) (qual : List ModulePairScore) (uidB : String) :
    List Module :=
  (mergePairsSorted qual uidB).filterMap (fun p => lookupMod modA p.uid_a)

/-- `union_files` over the top-five merge candidates. -/
def mergeUnion (modA : List Module) (qual : List ModulePairScore) (uidB : String) :
    Finset String :=
  (mergePairsSorted qual uidB).foldl (fun acc p =>
    match lookupMod modA p.uid_a with
    | some ma => acc ∪ ma.files
    | none => acc) ∅

/-- `coverage` of the B-module's files by the sources' union. -/
def mergeCoverage (modA : List Module) (qual : List ModulePairScore) (uidB : String)
    (mb : Module) : ℚ :=
  if mb.files ≠ ∅ then ((mb.files ∩ mergeUnion modA qual uidB).card : ℚ) / mb.files.card
  else 0

/-- The `overlaps` evidence entries of a merge event. -/
def mergeOverlapsList (modA : List Module) (qual : List ModulePairScore) (uidB : String) :
    List Val :=
  (mergePairsSorted qual uidB).filterMap (fun p =>
    match lookupMod modA p.uid_a with
    | some _ => some (Val.vdict [("from", .vs p.uid_a),
        ("overlap", .vq (pyRound 4 p.overlap)), ("intersect_files", .vi p.inter_count)])
    | none => none)

/-- The body run for one B-uid by the merge loop of
`infer_module_events` (section 3, symmetric to the split body). -/
def mergeEventFor (modA modB : List Module) (cfg : DiffConfig)
    (qual : List ModulePairScore) (uidB : String) (n : Nat) : List ChangeEvent × Nat :=
  match lookupMod modB uidB with
  | none => ([], n)
  | some mb =>
    if (mergePairs qual uidB).length < 2 then ([], n)
    else if (mergeSources modA qual uidB).length < 2 then ([], n)
    else if cfg.coverage_threshold ≤ mergeCoverage modA qual uidB mb then
      ([ChangeEvent.mk n "module_merge"
          (pyRound 4 (min (85/100) (max (3/10) (mergeCoverage modA qual uidB mb))))
        [("from_module_uids", .vlist ((mergeSources modA qual uidB).map (fun s => Val.vs s.uid))),
         ("to_module_uid", .vs mb.uid),
         ("coverage", .vq (pyRound 4 (mergeCoverage modA qual uidB mb))),
         ("overlaps", .vlist (mergeOverlapsList modA qual uidB))]], n + 1)
    else ([], n)

/-- The merge loop of `infer_module_events`. -/
def mergeSection (modA modB : List Module) (cfg : DiffConfig)
    (qual : List ModulePairScore) : List String → Nat → List ChangeEvent × Nat
  | [], n => ([], n)
  | uidB :: rest, n =>
    let (evs, n') := mergeEventFor modA modB cfg qual uidB n
    let (restEvs, n'') := mergeSection modA modB cfg qual rest n'
    (evs ++ restEvs, n'')

/-- `diff_core.infer_module_events`: greedy rename inference, then
overlap-driven split inference, then merge inference, one id counter
threaded through. -/
def inferModuleEvents (a b : Snapshot) (cfg : DiffConfig) (nextIdStart : Nat) :
    List ChangeEvent × Nat :=
  let scores := alignModules a.modules b.modules
  let modA := a.modules
  let modB := b.modules
  let matched := greedyMatchDC scores [] []
  let (renEvs, n1) := renameSection modA modB cfg matched nextIdStart
  let qual := scores.filter (fun s => cfg.split_merge_overlap ≤ s.overlap)
  let (splitEvs, n2) := splitSection modA modB cfg qual (firstKeys (qual.map (·.uid_a))) n1
  let (mergeEvs, n3) := mergeSection modA modB cfg qual (firstKeys (qual.map (·.uid_b))) n2
  (renEvs ++ splitEvs ++ mergeEvs, n3)

/-- `quality.QualityReport` (the free-text `notes` are presentation-only). -/
structure QualityReport where
  flags : List (String × Bool)
  warning_events : List ChangeEvent

/-- The `_add_warn` helper of `quality.build_quality_report`: append one
`quality_warning` event and advance the id counter when the flag holds. -/
def qualityWarnStep (acc : List ChangeEvent × Nat) (cond : Bool) (key : String) :
    List ChangeEvent × Nat :=
  if cond then
    (acc.1 ++ [ChangeEvent.mk acc.2 "quality_warning" 1 [("flag", .vs key)]], acc.2 + 1)
  else acc

/-- `quality.build_quality_report`: the five flags, and one
`quality_warning` event per true flag in the fixed order
duplicate-names, empty-modules, mapping-incomplete, count-delta, stable
universe, ids threaded from `next_id_start`. -/
def buildQualityReport (a b : Snapshot) (filesAddedCount filesRemovedCount : Nat)
    (cfg : DiffConfig) (nextIdStart : Nat) : QualityReport × Nat :=
  let stable := filesAddedCount = 0 ∧ filesRemovedCount = 0 ∧ a.files.card = b.files.card
  let dup := !a.named.duplicate_module_names.isEmpty || !b.named.duplicate_module_names.isEmpty
  let empt := !a.named.empty_modules.isEmpty || !b.named.empty_modules.isEmpty
  let incomplete := !a.comp.unresolved.isEmpty || !b.comp.unresolved.isEmpty
  let ca := a.modules.length
  let cb := b.modules.length
  let deltaRatio : ℚ := ((cb : ℤ) - ca).natAbs / (max 1 ca : ℚ)
  let large := cfg.module_count_delta_warn_ratio ≤ deltaRatio
  let w0 : List ChangeEvent × Nat := ([], nextIdStart)
  let w1 := qualityWarnStep w0 dup "namedcluster_has_duplicate_module_names"
  let w2 := qualityWarnStep w1 empt "namedcluster_has_empty_module"
  let w3 := qualityWarnStep w2 incomplete "component_mapping_incomplete"
  let w4 := qualityWarnStep w3 (decide large) "module_count_delta_large"
  let w5 := qualityWarnStep w4 (decide stable) "stable_file_universe"
  ({ flags := [("stable_file_universe", decide stable),
               ("namedcluster_has_duplicate_module_names", dup),
               ("namedcluster_has_empty_module", empt),
               ("component_mapping_incomplete", incomplete),
               ("module_count_delta_large", decide large)],
     warning_events := w5.1 }, w5.2)

/-! ### Lemmas about the denoise filter -/

theorem keepEvent_of_type_ne (cfg : DenoiseConfig) (pt : String × String → String → Bool)
    (pj : String × String → Option ℚ) (szA szB : String → Nat) (ev : ChangeEvent)
    (h : ev.type ≠ "module_renamed") : keepEvent cfg pt pj szA szB ev = true := by
  unfold keepEvent
  simp [h]

theorem keepEvent_of_no_pair (cfg : DenoiseConfig) (pt : String × String → String → Bool)
    (pj : String × String → Option ℚ) (szA szB : String → Nat) (ev : ChangeEvent)
    (h : getFromToUids ev = none) : keepEvent cfg pt pj szA szB ev = true := by
  unfold keepEvent
  by_cases ht : ev.type ≠ "module_renamed" <;> simp [ht, h]

theorem denoiseChanges_fst_of_enabled (l : List ChangeEvent)
    (a b : Option NamedClustersIndex) (cfg : DenoiseConfig)
    (h : (cfg.enabled && cfg.drop_module_renamed) = true) :
    (denoiseChanges l a b cfg).1 =
      l.filter (keepEvent cfg (pairHasType l) (pairJaccard l)
        (moduleSize a) (moduleSize b)) := by
  unfold denoiseChanges
  simp [h]

theorem denoiseChanges_fst_of_disabled (l : List ChangeEvent)
    (a b : Option NamedClustersIndex) (cfg : DenoiseConfig)
    (h : (cfg.enabled && cfg.drop_module_renamed) = false) :
    (denoiseChanges l a b cfg).1 = l := by
  unfold denoiseChanges
  simp [h]

theorem denoiseChanges_snd_of_enabled (l : List ChangeEvent)
    (a b : Option NamedClustersIndex) (cfg : DenoiseConfig)
    (h : (cfg.enabled && cfg.drop_module_renamed) = true) :
    (denoiseChanges l a b cfg).2 =
      [("enabled", .vb cfg.enabled), ("strategy", .vs "step1_rename_filter"),
       ("input_events", .vi l.length),
       ("output_events", .vi (l.filter (keepEvent cfg (pairHasType l) (pairJaccard l)
          (moduleSize a) (moduleSize b))).length),
       ("dropped", .vi ((l.filter (fun ev => !keepEvent cfg (pairHasType l) (pairJaccard l)
          (moduleSize a) (moduleSize b) ev)).map (·.id)).length),
       ("dropped_ids_sample", .vlist ((((l.filter (fun ev => !keepEvent cfg (pairHasType l)
          (pairJaccard l) (moduleSize a) (moduleSize b) ev)).map (·.id)).take 20).map
            (Val.vi ∘ Int.ofNat)))] := by
  unfold denoiseChanges
  simp [h]

/-- C10: every event dropped by `denoise_changes` is a `module_renamed`
event whose detail yields both a from-uid and a to-uid; events of every
other type, and `module_renamed` events without such a pair, survive
filtering under every configuration. -/
theorem denoise_drops_only_renamed_with_pair (l : List ChangeEvent)
    (a b : Option NamedClustersIndex) (cfg : DenoiseConfig) (ev : ChangeEvent)
    (hmem : ev ∈ l) :
    ((ev.type ≠ "module_renamed" ∨ getFromToUids ev = none) →
        ev ∈ (denoiseChanges l a b cfg).1) ∧
    (ev ∉ (denoiseChanges l a b cfg).1 →
        ev.type = "module_renamed" ∧ (getFromToUids ev).isSome) := by
  by_cases h : (cfg.enabled && cfg.drop_module_renamed) = true
  · rw [denoiseChanges_fst_of_enabled l a b cfg h]
    constructor
    · intro hk
      refine List.mem_filter.mpr ⟨hmem, ?_⟩
      rcases hk with hk | hk
      · exact keepEvent_of_type_ne _ _ _ _ _ _ hk
      · exact keepEvent_of_no_pair _ _ _ _ _ _ hk
    · intro hout
      by_contra hcon
      rw [not_and_or] at hcon
      apply hout
      refine List.mem_filter.mpr ⟨hmem, ?_⟩
      rcases hcon with hc | hc
      · exact keepEvent_of_type_ne _ _ _ _ _ _ hc
      · exact keepEvent_of_no_pair _ _ _ _ _ _ (Option.not_isSome_iff_eq_none.mp hc)
  · rw [denoiseChanges_fst_of_disabled l a b cfg (by simpa using h)]
    exact ⟨fun _ => hmem, fun hout => absurd hmem hout⟩

/-- Witness for C10 at a concrete input: a `file_added` event survives the
default filter. -/
theorem denoise_drops_only_renamed_with_pair_witness :
    ChangeEvent.mk 1 "file_added" 1 [] ∈
      (denoiseChanges [ChangeEvent.mk 1 "file_added" 1 []] none none defaultDenoise).1 :=
  (denoise_drops_only_renamed_with_pair _ none none defaultDenoise _
    (List.mem_singleton.mpr rfl)).1 (Or.inl (by decide))

theorem keepEvent_default (pt : String × String → String → Bool)
    (pj : String × String → Option ℚ) (szA szB : String → Nat) (ev : ChangeEvent) :
    keepEvent defaultDenoise pt pj szA szB ev =
      (decide (ev.type ≠ "module_renamed") || (getFromToUids ev).isNone) := by
  unfold keepEvent
  by_cases ht : ev.type ≠ "module_renamed"
  · simp [ht]
  · cases hp : getFromToUids ev with
    | none => simp [ht, hp]
    | some p =>
      obtain ⟨f, t, j⟩ := p
      have hkro : defaultDenoise.keep_rename_if_only = false := rfl
      simp only [ht, hp, if_false, Option.isNone_some, Bool.or_false, hkro,
        Bool.not_false, if_true, decide_eq_true_eq]
      split
      · simp [ht]
      · split
        · simp [ht]
        · simp [ht]

/-- C1 (amended): with the default denoise configuration there is no type
allow-list; the filter keeps exactly the events whose type is not
`module_renamed` together with the `module_renamed` events whose detail
lacks a from/to uid pair, drops every other `module_renamed` event, and
records the dropped-event ids (a sample capped at 20) and the dropped
count in the returned statistics. -/
theorem denoise_default_drops_exactly_renamed_pairs (l : List ChangeEvent)
    (a b : Option NamedClustersIndex) :
    (denoiseChanges l a b defaultConfig.denoise).1 =
      l.filter (fun ev => decide (ev.type ≠ "module_renamed") || (getFromToUids ev).isNone) ∧
    getVal (denoiseChanges l a b defaultConfig.denoise).2 "dropped" =
      some (.vi ((l.filter (fun ev =>
        ev.type == "module_renamed" && (getFromToUids ev).isSome)).length)) ∧
    getVal (denoiseChanges l a b defaultConfig.denoise).2 "dropped_ids_sample" =
      some (.vlist (((l.filter (fun ev =>
        ev.type == "module_renamed" && (getFromToUids ev).isSome)).map (·.id)).take 20
          |>.map (Val.vi ∘ Int.ofNat))) := by
  have hdef : defaultConfig.denoise = defaultDenoise := rfl
  have hen : (defaultDenoise.enabled && defaultDenoise.drop_module_renamed) = true := rfl
  have hkeep : ∀ ev : ChangeEvent,
      keepEvent defaultDenoise (pairHasType l) (pairJaccard l)
        (moduleSize a) (moduleSize b) ev =
        (decide (ev.type ≠ "module_renamed") || (getFromToUids ev).isNone) :=
    fun ev => keepEvent_default _ _ _ _ ev
  have hnotkeep : ∀ ev : ChangeEvent,
      (!(decide (ev.type ≠ "module_renamed") || (getFromToUids ev).isNone)) =
        (ev.type == "module_renamed" && (getFromToUids ev).isSome) := by
    intro ev
    rw [Bool.not_or]
    congr 1
    · rcases Decidable.em (ev.type = "module_renamed") with h | h <;> simp [h]
    · cases h : getFromToUids ev <;> simp [h]
  have hfil : l.filter (fun ev => !keepEvent defaultDenoise (pairHasType l) (pairJaccard l)
        (moduleSize a) (moduleSize b) ev) =
      l.filter (fun ev => ev.type == "module_renamed" && (getFromToUids ev).isSome) :=
    List.filter_congr (fun ev _ => by rw [hkeep ev]; exact hnotkeep ev)
  refine ⟨?_, ?_, ?_⟩
  · rw [hdef, denoiseChanges_fst_of_enabled l a b defaultDenoise hen]
    exact List.filter_congr (fun ev _ => hkeep ev)
  · rw [hdef, denoiseChanges_snd_of_enabled l a b defaultDenoise hen, hfil,
      List.length_map]
    rfl
  · rw [hdef, denoiseChanges_snd_of_enabled l a b defaultDenoise hen, hfil]
    rfl

/-- C1 counterexample: under the default configuration a `module_split`
event, whose type is outside the allow-list
`{module_added, module_removed, module_changed}` of the claim, survives
the filter instead of being dropped. -/
theorem denoise_default_whitelist_counterexample :
    ("module_split" ≠ "module_added" ∧ "module_split" ≠ "module_removed" ∧
     "module_split" ≠ "module_changed") ∧
    (denoiseChanges [ChangeEvent.mk 1 "module_split" 1 []] none none
        defaultConfig.denoise).1 = [ChangeEvent.mk 1 "module_split" 1 []] := by
  refine ⟨⟨by decide, by decide, by decide⟩, ?_⟩
  rw [show defaultConfig.denoise = defaultDenoise from rfl,
    denoiseChanges_fst_of_enabled _ none none defaultDenoise rfl]
  have hk := keepEvent_of_type_ne defaultDenoise
    (pairHasType [ChangeEvent.mk 1 "module_split" 1 []])
    (pairJaccard [ChangeEvent.mk 1 "module_split" 1 []])
    (moduleSize none) (moduleSize none) (ChangeEvent.mk 1 "module_split" 1 [])
    (by decide)
  simp [List.filter, hk]

/-- The value an event writes into `pair_to_jaccard[key]` in the first
pass of `denoise_changes` (its jaccard, when its pair matches `key` and
the jaccard is not `None`). -/
def contribJ (key : String × String) (ev : ChangeEvent) : Option ℚ :=
  match getFromToUids ev with
  | some (f, t, some jv) => if (f, t) = key then some jv else none
  | _ => none

theorem pairJaccard_nil (key : String × String) : pairJaccard [] key = none := rfl

theorem pairJaccard_concat (l : List ChangeEvent) (e : ChangeEvent)
    (key : String × String) :
    pairJaccard (l ++ [e]) key =
      (match contribJ key e with
       | some j => some j
       | none => pairJaccard l key) := by
  unfold pairJaccard contribJ
  rw [List.foldl_append]
  simp only [List.foldl_cons, List.foldl_nil]
  rcases h : getFromToUids e with _ | ⟨f, t, _ | jv⟩ <;> simp [h]
  by_cases hk : (f, t) = key <;> simp [hk]

theorem pairJaccard_filter (l : List ChangeEvent) (K : ChangeEvent → Bool)
    (key : String × String) (v : ℚ)
    (hK : ∀ e ∈ l, contribJ key e = some v → K e = true)
    (hv : pairJaccard l key = some v) :
    pairJaccard (l.filter K) key = some v := by
  induction l using List.reverseRecOn with
  | nil => simp [pairJaccard_nil] at hv
  | append_singleton l e ih =>
    rw [pairJaccard_concat] at hv
    rw [List.filter_append]
    rcases hc : contribJ key e with _ | w
    · rw [hc] at hv
      have hml : ∀ e' ∈ l, contribJ key e' = some v → K e' = true :=
        fun e' he' => hK e' (List.mem_append_left _ he')
      cases hKe : K e
      · simp only [List.filter_cons, hKe, if_neg, List.filter_nil, List.append_nil,
          Bool.false_eq_true, ite_false]
        exact ih hml hv
      · have : (List.filter K [e]) = [e] := by simp [List.filter, hKe]
        rw [this, pairJaccard_concat, hc]
        exact ih hml hv
    · rw [hc] at hv
      have hwv : w = v := by injection hv
      subst hwv
      have hKe : K e = true := hK e (List.mem_append_right _ (List.mem_singleton.mpr rfl)) hc
      have : (List.filter K [e]) = [e] := by simp [List.filter, hKe]
      rw [this, pairJaccard_concat, hc]

theorem pairHasType_of_filter (l : List ChangeEvent) (K : ChangeEvent → Bool)
    (key : String × String) (t : String)
    (h : pairHasType (l.filter K) key t = true) : pairHasType l key t = true := by
  unfold pairHasType at h ⊢
  rw [List.any_eq_true] at h ⊢
  obtain ⟨ev, hev, hp⟩ := h
  exact ⟨ev, List.mem_of_mem_filter hev, hp⟩

/-- C8: the denoise filter never mutates surviving events — its output is
a sublist of its input — and it is idempotent for every configuration:
filtering its own output again with the same configuration is a no-op. -/
theorem denoise_sublist_and_idempotent (l : List ChangeEvent)
    (a b : Option NamedClustersIndex) (cfg : DenoiseConfig) :
    (denoiseChanges l a b cfg).1.Sublist l ∧
    (denoiseChanges (denoiseChanges l a b cfg).1 a b cfg).1 =
      (denoiseChanges l a b cfg).1 := by
  by_cases h : (cfg.enabled && cfg.drop_module_renamed) = true
  · rw [denoiseChanges_fst_of_enabled l a b cfg h]
    set szA := moduleSize a with hszA
    set szB := moduleSize b with hszB
    set K := keepEvent cfg (pairHasType l) (pairJaccard l) szA szB with hKdef
    refine ⟨List.filter_sublist l, ?_⟩
    rw [denoiseChanges_fst_of_enabled (l.filter K) a b cfg h]
    apply List.filter_eq_self.mpr
    intro ev hev
    have hKev : K ev = true := List.of_mem_filter hev
    by_cases ht : ev.type ≠ "module_renamed"
    · exact keepEvent_of_type_ne _ _ _ _ _ _ ht
    · rcases hp : getFromToUids ev with _ | ⟨f, t, j⟩
      · exact keepEvent_of_no_pair _ _ _ _ _ _ hp
      · -- dissect the keep decision on the full list
        rw [hKdef] at hKev
        unfold keepEvent at hKev
        rw [if_neg ht, hp] at hKev
        simp only at hKev
        have hA : ruleA cfg (pairHasType l) (f, t) = false := by
          cases hA : ruleA cfg (pairHasType l) (f, t)
          · rfl
          · rw [hA] at hKev; simp at hKev
        rw [hA] at hKev
        simp only [Bool.false_eq_true, if_false] at hKev
        have hB : ruleB cfg (f, t) = false := by
          cases hB : ruleB cfg (f, t)
          · rfl
          · rw [hB] at hKev; simp at hKev
        rw [hB] at hKev
        simp only [Bool.false_eq_true, if_false] at hKev
        have hkro : cfg.keep_rename_if_only = true := by
          cases hkro : cfg.keep_rename_if_only
          · rw [hkro] at hKev; simp at hKev
          · rfl
        rw [hkro] at hKev
        simp only [Bool.not_true, Bool.false_eq_true, if_false] at hKev
        -- components of the successful rule C
        obtain ⟨jj, hjs, hjlt, hsz⟩ :
            ∃ jj, (match j with | some v => some v | none => pairJaccard l (f, t)) = some jj ∧
              ¬(jj < cfg.keep_rename_min_jaccard) ∧
              cfg.keep_rename_min_module_size ≤ max (szA f) (szB t) := by
          unfold ruleCKeep at hKev
          rcases hjs : (match j with | some v => some v | none => pairJaccard l (f, t)) with
            _ | jj
          · rw [hjs] at hKev; simp at hKev
          · rw [hjs] at hKev
            have hKev' : (if jj < cfg.keep_rename_min_jaccard then false
                else decide (cfg.keep_rename_min_module_size ≤
                  max (szA (f, t).1) (szB (f, t).2))) = true := hKev
            by_cases hlt : jj < cfg.keep_rename_min_jaccard
            · rw [if_pos hlt] at hKev'; simp at hKev'
            · rw [if_neg hlt] at hKev'
              exact ⟨jj, hjs, hlt, by simpa using hKev'⟩
        -- keep decision on the filtered list
        unfold keepEvent
        rw [if_neg ht, hp]
        simp only
        have hA' : ruleA cfg (pairHasType (l.filter K)) (f, t) = false := by
          unfold ruleA at hA ⊢
          cases hflag : cfg.drop_renamed_if_has_other_events_same_pair
          · simp
          · rw [hflag] at hA
            simp only [Bool.true_and] at hA ⊢
            cases h1 : pairHasType (l.filter K) (f, t) "module_changed"
            · cases h2 : pairHasType (l.filter K) (f, t) "module_component_changed"
              · simp
              · have := pairHasType_of_filter l K (f, t) _ h2
                rw [this] at hA
                simp at hA
            · have := pairHasType_of_filter l K (f, t) _ h1
              rw [this] at hA
              simp at hA
        rw [hA']
        simp only [Bool.false_eq_true, if_false]
        rw [hB]
        simp only [Bool.false_eq_true, if_false]
        rw [hkro]
        simp only [Bool.not_true, Bool.false_eq_true, if_false]
        -- rule C on the filtered list
        unfold ruleCKeep
        rcases j with _ | jv
        · -- the event has no jaccard of its own: the pair map survives filtering
          simp only at hjs ⊢
          have hpjf : pairJaccard (l.filter K) (f, t) = some jj := by
            apply pairJaccard_filter l K (f, t) jj _ hjs
            intro e he hce
            by_cases hte : e.type ≠ "module_renamed"
            · exact keepEvent_of_type_ne _ _ _ _ _ _ hte
            · rcases hpe : getFromToUids e with _ | ⟨f', t', j'⟩
              · exact keepEvent_of_no_pair _ _ _ _ _ _ hpe
              · unfold contribJ at hce
                rw [hpe] at hce
                rcases j' with _ | jv'
                · simp at hce
                · simp only at hce
                  by_cases hk' : (f', t') = (f, t)
                  · rw [if_pos hk'] at hce
                    have hjv' : jv' = jj := by injection hce
                    rw [hKdef]
                    unfold keepEvent
                    rw [if_neg hte, hpe]
                    simp only
                    rw [hk', hA]
                    simp only [Bool.false_eq_true, if_false]
                    rw [hB]
                    simp only [Bool.false_eq_true, if_false]
                    rw [hkro]
                    simp only [Bool.not_true, Bool.false_eq_true, if_false]
                    unfold ruleCKeep
                    show (if jv' < cfg.keep_rename_min_jaccard then false
                        else decide (cfg.keep_rename_min_module_size ≤
                          max (moduleSize a f) (moduleSize b t))) = true
                    rw [hjv', if_neg hjlt]
                    simpa using hsz
                  · rw [if_neg hk'] at hce
                    simp at hce
          rw [hpjf]
          show (if jj < cfg.keep_rename_min_jaccard then false
              else decide (cfg.keep_rename_min_module_size ≤
                max (moduleSize a f) (moduleSize b t))) = true
          rw [if_neg hjlt]
          simpa using hsz
        · have hjv : jv = jj := by
            have h' : (some jv : Option ℚ) = some jj := hjs
            injection h'
          show (if jv < cfg.keep_rename_min_jaccard then false
              else decide (cfg.keep_rename_min_module_size ≤
                max (moduleSize a f) (moduleSize b t))) = true
          rw [hjv, if_neg hjlt]
          simpa using hsz
  · have hd := denoiseChanges_fst_of_disabled l a b cfg (by simpa using h)
    rw [hd]
    exact ⟨List.Sublist.refl l,
      by rw [denoiseChanges_fst_of_disabled l a b cfg (by simpa using h)]⟩

/-! ### Lemmas about the significance scorer -/

/-- C2 (amended): for an event of a structural type the scorer is NOT
total when the project has ≤ 0 files — `math.log` raises (`ValueError`
for a negative count, `ZeroDivisionError` at zero) and no score is
returned; the treat-as-zero guard of the claim does not exist.  A score
is returned whenever `max_files_in_project ≥ 1` (the event file count
being ≥ 0, as for every generator-produced event). -/
theorem significance_not_total_on_nonpositive_project (log : ℚ → ℚ) (w : Weights)
    (ev : ChangeEvent) (maxF : Int)
    (hs : (structuralFactor ev.type ev.detail).isSome = true)
    (hfc : 0 ≤ fileCountOf ev.detail) :
    (maxF ≤ 0 → computeArchitectureSignificance log w ev maxF = none) ∧
    (1 ≤ maxF → (computeArchitectureSignificance log w ev maxF).isSome = true) := by
  unfold computeArchitectureSignificance
  rcases hsf : structuralFactor ev.type ev.detail with _ | s
  · rw [hsf] at hs; simp at hs
  · simp only [hsf]
    have hpos : ¬(1 + fileCountOf ev.detail ≤ 0) := by linarith
    rw [if_neg hpos]
    constructor
    · intro hle
      rw [if_pos hle]
    · intro hge
      rw [if_neg (by omega)]
      simp

/-- Witness for C2 at a concrete input: a bare `module_added` event in a
project reported as having 0 files. -/
theorem significance_not_total_on_nonpositive_project_witness :
    computeArchitectureSignificance (fun _ => 0) DEFAULT_WEIGHTS
      (ChangeEvent.mk 1 "module_added" (95/100) []) 0 = none :=
  (significance_not_total_on_nonpositive_project (fun _ => 0) DEFAULT_WEIGHTS
    (ChangeEvent.mk 1 "module_added" (95/100) []) 0
    (by simp +decide [structuralFactor, getVal, numOrDefault])
    (by norm_num [fileCountOf, getVal, numOrDefault])).1 (le_refl 0)

/-- C2 counterexample: the claim's guard does not exist — with
`max_files_in_project = 0` the scorer raises instead of returning a
score, for a structural (`module_added`) event. -/
theorem significance_guard_counterexample :
    structuralFactor "module_added" [] = some 1 ∧
    computeArchitectureSignificance (fun _ => 0) DEFAULT_WEIGHTS
      (ChangeEvent.mk 2 "module_added" (95/100) []) 0 = none := by
  constructor
  · simp +decide [structuralFactor, getVal, numOrDefault]
  · unfold computeArchitectureSignificance
    simp +decide [structuralFactor, fileCountOf, getVal, numOrDefault]

/-! ### Event-id sequencing -/

/-- A generator output is id-sequential: the ids are exactly
`n, n+1, …` in order, and the returned counter is `n` plus the number of
emitted events. -/
def idsOk (l : List ChangeEvent) (n n' : Nat) : Prop :=
  l.map (·.id) = List.range' n l.length ∧ n' = n + l.length

theorem idsOk_nil (n : Nat) : idsOk [] n n := by
  constructor <;> simp [idsOk]

theorem idsOk_single (n : Nat) (ev : ChangeEvent) (h : ev.id = n) :
    idsOk [ev] n (n + 1) := by
  constructor <;> simp [List.range', h]

theorem idsOk_append {l1 l2 : List ChangeEvent} {n m n' : Nat}
    (h1 : idsOk l1 n m) (h2 : idsOk l2 m n') : idsOk (l1 ++ l2) n n' := by
  obtain ⟨h1a, h1b⟩ := h1
  obtain ⟨h2a, h2b⟩ := h2
  constructor
  · rw [List.map_append, h1a, h2a, List.length_append, h1b,
      Nat.add_comm l1.length l2.length]
    exact List.range'_append_1 n l1.length l2.length
  · rw [List.length_append]
    omega

theorem idsOk_cons {l : List ChangeEvent} {n n' : Nat} (ev : ChangeEvent)
    (h : ev.id = n) (hl : idsOk l (n + 1) n') : idsOk (ev :: l) n n' := by
  exact idsOk_append (idsOk_single n ev h) hl

theorem removedEvents_idsOk (aMod : List Module) (uids : List String) (n : Nat) :
    idsOk (removedEvents aMod uids n).1 n (removedEvents aMod uids n).2 := by
  induction uids generalizing n with
  | nil => exact idsOk_nil n
  | cons uid rest ih =>
    unfold removedEvents
    rcases lookupMod aMod uid with _ | m
    · exact ih n
    · simp only
      exact idsOk_cons _ rfl (ih (n + 1))

theorem addedEvents_idsOk (bMod : List Module) (uids : List String) (n : Nat) :
    idsOk (addedEvents bMod uids n).1 n (addedEvents bMod uids n).2 := by
  induction uids generalizing n with
  | nil => exact idsOk_nil n
  | cons uid rest ih =>
    unfold addedEvents
    rcases lookupMod bMod uid with _ | m
    · exact ih n
    · simp only
      exact idsOk_cons _ rfl (ih (n + 1))

theorem renamedEventsForPair_idsOk (mm : ModuleMapping) (ma mb : Module) (n : Nat) :
    idsOk (renamedEventsForPair mm ma mb n).1 n (renamedEventsForPair mm ma mb n).2 := by
  unfold renamedEventsForPair
  dsimp only
  split
  · exact idsOk_single n _ rfl
  · exact idsOk_nil n

theorem compEventsForPair_idsOk (compA compB : Option ComponentMapping)
    (mm : ModuleMapping) (ma mb : Module) (n : Nat) :
    idsOk (compEventsForPair compA compB mm ma mb n).1 n
      (compEventsForPair compA compB mm ma mb n).2 := by
  unfold compEventsForPair
  rcases compA with _ | ca <;> rcases compB with _ | cb
  · exact idsOk_nil n
  · exact idsOk_nil n
  · exact idsOk_nil n
  · simp only
    rcases lookupStr ca.module_uid_to_component ma.uid with _ | x <;>
      rcases lookupStr cb.module_uid_to_component mb.uid with _ | y
    · exact idsOk_nil n
    · exact idsOk_nil n
    · exact idsOk_nil n
    · simp only
      split
      · exact idsOk_single n _ rfl
      · exact idsOk_nil n

theorem changedEventsForPair_idsOk (compA compB : Option ComponentMapping)
    (codesemA codesemB : Option CodeSemIndex) (archsemA archsemB : Option ArchSemIndex)
    (topKFiles minFileDelta : Nat) (mm : ModuleMapping) (ma mb : Module) (n : Nat) :
    idsOk (changedEventsForPair compA compB codesemA codesemB archsemA archsemB
        topKFiles minFileDelta mm ma mb n).1 n
      (changedEventsForPair compA compB codesemA codesemB archsemA archsemB
        topKFiles minFileDelta mm ma mb n).2 := by
  unfold changedEventsForPair
  split
  · exact idsOk_single n _ rfl
  · exact idsOk_nil n

theorem pairEvents_idsOk (aMod bMod : List Module) (compA compB : Option ComponentMapping)
    (codesemA codesemB : Option CodeSemIndex) (archsemA archsemB : Option ArchSemIndex)
    (topKFiles minFileDelta : Nat) (minJaccardToAccept : ℚ) (mm : ModuleMapping) (n : Nat) :
    idsOk (pairEvents aMod bMod compA compB codesemA codesemB archsemA archsemB
        topKFiles minFileDelta minJaccardToAccept mm n).1 n
      (pairEvents aMod bMod compA compB codesemA codesemB archsemA archsemB
        topKFiles minFileDelta minJaccardToAccept mm n).2 := by
  unfold pairEvents
  rcases lookupMod aMod mm.from_uid with _ | ma <;>
    rcases lookupMod bMod mm.to_uid with _ | mb
  · exact idsOk_nil n
  · exact idsOk_nil n
  · exact idsOk_nil n
  · simp only
    split
    · exact idsOk_nil n
    · exact idsOk_append
        (idsOk_append (renamedEventsForPair_idsOk mm ma mb n)
          (compEventsForPair_idsOk compA compB mm ma mb _))
        (changedEventsForPair_idsOk compA compB codesemA codesemB archsemA archsemB
          topKFiles minFileDelta mm ma mb _)

theorem mappedEvents_idsOk (aMod bMod : List Module) (compA compB : Option ComponentMapping)
    (codesemA codesemB : Option CodeSemIndex) (archsemA archsemB : Option ArchSemIndex)
    (topKFiles minFileDelta : Nat) (minJaccardToAccept : ℚ)
    (mms : List ModuleMapping) (n : Nat) :
    idsOk (mappedEvents aMod bMod compA compB codesemA codesemB archsemA archsemB
        topKFiles minFileDelta minJaccardToAccept mms n).1 n
      (mappedEvents aMod bMod compA compB codesemA codesemB archsemA archsemB
        topKFiles minFileDelta minJaccardToAccept mms n).2 := by
  induction mms generalizing n with
  | nil => exact idsOk_nil n
  | cons mm rest ih =>
    unfold mappedEvents
    simp only
    exact idsOk_append (pairEvents_idsOk aMod bMod compA compB codesemA codesemB
      archsemA archsemB topKFiles minFileDelta minJaccardToAccept mm n) (ih _)

theorem buildModuleLevelEvents_idsOk (idxA idxB : NamedClustersIndex)
    (compA compB : Option ComponentMapping) (alignment : A2AAlignment)
    (nextIdStart topKFiles minFileDelta : Nat) (minJaccardToAccept : ℚ)
    (codesemA codesemB : Option CodeSemIndex) (archsemA archsemB : Option ArchSemIndex) :
    idsOk (buildModuleLevelEvents idxA idxB compA compB alignment nextIdStart
        topKFiles minFileDelta minJaccardToAccept codesemA codesemB archsemA archsemB).1
      nextIdStart
      (buildModuleLevelEvents idxA idxB compA compB alignment nextIdStart
        topKFiles minFileDelta minJaccardToAccept codesemA codesemB archsemA archsemB).2 := by
  unfold buildModuleLevelEvents
  simp only
  exact idsOk_append
    (idsOk_append (removedEvents_idsOk _ _ _) (addedEvents_idsOk _ _ _))
    (mappedEvents_idsOk _ _ _ _ _ _ _ _ _ _ _ _ _)

theorem qualityWarnStep_idsOk {acc : List ChangeEvent × Nat} {n : Nat}
    (h : idsOk acc.1 n acc.2) (cond : Bool) (key : String) :
    idsOk (qualityWarnStep acc cond key).1 n (qualityWarnStep acc cond key).2 := by
  unfold qualityWarnStep
  cases cond
  · simpa using h
  · simp only [if_true]
    exact idsOk_append h (idsOk_single acc.2 _ rfl)

theorem buildQualityReport_idsOk (a b : Snapshot) (fa fr : Nat) (cfg : DiffConfig)
    (n : Nat) :
    idsOk (buildQualityReport a b fa fr cfg n).1.warning_events n
      (buildQualityReport a b fa fr cfg n).2 := by
  unfold buildQualityReport
  simp only
  exact qualityWarnStep_idsOk (qualityWarnStep_idsOk (qualityWarnStep_idsOk
    (qualityWarnStep_idsOk (qualityWarnStep_idsOk (idsOk_nil n) _ _) _ _) _ _) _ _) _ _

/-- C9: within one run, change-event ids are assigned in strictly
increasing (consecutive) order matching generation order, in both the
module-level generator and the quality generator: each returns the
counter's final value `start + #events`, and the emitted id sequence is
exactly `start, start+1, …` — so composing the stages (quality starting
at the module generator's returned counter) reuses no id and never goes
out of order. -/
theorem event_ids_sequential_across_generators (idxA idxB : NamedClustersIndex)
    (compA compB : Option ComponentMapping) (alignment : A2AAlignment)
    (nextIdStart topKFiles minFileDelta : Nat) (minJaccardToAccept : ℚ)
    (codesemA codesemB : Option CodeSemIndex) (archsemA archsemB : Option ArchSemIndex)
    (a b : Snapshot) (fa fr : Nat) (cfg : DiffConfig) :
    let modOut := buildModuleLevelEvents idxA idxB compA compB alignment nextIdStart
        topKFiles minFileDelta minJaccardToAccept codesemA codesemB archsemA archsemB
    let qualOut := buildQualityReport a b fa fr cfg modOut.2
    modOut.1.map (·.id) = List.range' nextIdStart modOut.1.length ∧
    modOut.2 = nextIdStart + modOut.1.length ∧
    (qualOut.1.warning_events.map (·.id) = List.range' modOut.2 qualOut.1.warning_events.length ∧
     qualOut.2 = modOut.2 + qualOut.1.warning_events.length) ∧
    (modOut.1 ++ qualOut.1.warning_events).map (·.id) =
      List.range' nextIdStart (modOut.1 ++ qualOut.1.warning_events).length := by
  intro modOut qualOut
  have h1 := buildModuleLevelEvents_idsOk idxA idxB compA compB alignment nextIdStart
    topKFiles minFileDelta minJaccardToAccept codesemA codesemB archsemA archsemB
  have h2 := buildQualityReport_idsOk a b fa fr cfg modOut.2
  have h3 : idsOk (modOut.1 ++ qualOut.1.warning_events) nextIdStart qualOut.2 :=
    idsOk_append h1 h2
  exact ⟨h1.1, h1.2, ⟨h2.1, h2.2⟩, h3.1⟩

/-! ### Lemmas about the greedy aligner -/

theorem greedyGo_mem_input : ∀ (l : List ((Nat × Nat) × ℚ)) (uA uB : List Nat)
    (p : Nat × Nat × ℚ), p ∈ greedyGo l uA uB → ((p.1, p.2.1), p.2.2) ∈ l := by
  intro l
  induction l with
  | nil => intro uA uB p hp; simp [greedyGo] at hp
  | cons e rest ih =>
    intro uA uB p hp
    obtain ⟨⟨i, j⟩, w⟩ := e
    unfold greedyGo at hp
    split at hp
    · exact List.mem_cons_of_mem _ (ih _ _ _ hp)
    · rcases List.mem_cons.mp hp with h | h
      · subst h; exact List.mem_cons_self _ _
      · exact List.mem_cons_of_mem _ (ih _ _ _ h)

theorem greedyGo_fst_props : ∀ (l : List ((Nat × Nat) × ℚ)) (uA uB : List Nat),
    (∀ p ∈ greedyGo l uA uB, p.1 ∉ uA) ∧ ((greedyGo l uA uB).map (·.1)).Nodup := by
  intro l
  induction l with
  | nil => intro uA uB; simp [greedyGo]
  | cons e rest ih =>
    intro uA uB
    obtain ⟨⟨i, j⟩, w⟩ := e
    unfold greedyGo
    split
    · exact ih uA uB
    · rename_i hnot
      rw [not_or] at hnot
      constructor
      · intro p hp
        rcases List.mem_cons.mp hp with h | h
        · subst h; exact hnot.1
        · have := (ih (i :: uA) (j :: uB)).1 p h
          intro hmem
          exact this (List.mem_cons_of_mem _ hmem)
      · rw [List.map_cons, List.nodup_cons]
        refine ⟨?_, (ih (i :: uA) (j :: uB)).2⟩
        intro hmem
        rw [List.mem_map] at hmem
        obtain ⟨p, hp, hpi⟩ := hmem
        have := (ih (i :: uA) (j :: uB)).1 p hp
        exact this (hpi ▸ List.mem_cons_self i uA)

theorem greedyGo_snd_props : ∀ (l : List ((Nat × Nat) × ℚ)) (uA uB : List Nat),
    (∀ p ∈ greedyGo l uA uB, p.2.1 ∉ uB) ∧ ((greedyGo l uA uB).map (·.2.1)).Nodup := by
  intro l
  induction l with
  | nil => intro uA uB; simp [greedyGo]
  | cons e rest ih =>
    intro uA uB
    obtain ⟨⟨i, j⟩, w⟩ := e
    unfold greedyGo
    split
    · exact ih uA uB
    · rename_i hnot
      rw [not_or] at hnot
      constructor
      · intro p hp
        rcases List.mem_cons.mp hp with h | h
        · subst h; exact hnot.2
        · have := (ih (i :: uA) (j :: uB)).1 p h
          intro hmem
          exact this (List.mem_cons_of_mem _ hmem)
      · rw [List.map_cons, List.nodup_cons]
        refine ⟨?_, (ih (i :: uA) (j :: uB)).2⟩
        intro hmem
        rw [List.mem_map] at hmem
        obtain ⟨p, hp, hpj⟩ := hmem
        have := (ih (i :: uA) (j :: uB)).1 p hp
        exact this (hpj ▸ List.mem_cons_self j uB)

theorem buildWeights_bounds (mA mB : List (String × Finset String)) (minW : ℚ) :
    ∀ e ∈ buildWeights mA mB minW, e.1.1 < mA.length ∧ e.1.2 < mB.length := by
  intro e he
  unfold buildWeights at he
  rw [List.mem_flatMap] at he
  obtain ⟨ia, hia, he⟩ := he
  rw [List.mem_filterMap] at he
  obtain ⟨jb, hjb, he⟩ := he
  dsimp only at he
  split at he
  · have h1 : ia.1 < mA.length := by
      have := List.mem_enum_iff_getElem?.mp hia
      exact (List.getElem?_eq_some.mp this).1
    have h2 : jb.1 < mB.length := by
      have := List.mem_enum_iff_getElem?.mp hjb
      exact (List.getElem?_eq_some.mp this).1
    cases he
    exact ⟨h1, h2⟩
  · cases he

theorem greedyMatching_mem (w : List ((Nat × Nat) × ℚ)) (p : Nat × Nat × ℚ)
    (hp : p ∈ greedyMatching w) : ((p.1, p.2.1), p.2.2) ∈ w := by
  unfold greedyMatching at hp
  have := greedyGo_mem_input _ [] [] p hp
  exact (List.perm_insertionSort (fun x y => x.2 ≥ y.2) w).mem_iff.mp this

/-- Two nodup lists with the same members have the same length. -/
theorem length_filter_mem_of_nodup (l M : List String) (hl : l.Nodup) (hM : M.Nodup)
    (hsub : ∀ x ∈ M, x ∈ l) :
    (l.filter (fun x => x ∈ M)).length = M.length := by
  have hperm : List.Perm (l.filter (fun x => x ∈ M)) M := by
    rw [List.perm_ext_iff_of_nodup (hl.filter _) hM]
    intro x
    rw [List.mem_filter]
    constructor
    · intro ⟨_, hx⟩; simpa using hx
    · intro hx; exact ⟨hsub x hx, by simpa using hx⟩
  exact hperm.length_eq

/-- C5: the greedy aligner never matches an A-uid or B-uid twice, and
`|mapping| + |removed| = |A-modules|`, `|mapping| + |added| = |B-modules|`
(uids are unique per snapshot, being Python dict keys). -/
theorem aligner_matching_invariants (modulesA modulesB : List (String × Finset String))
    (minEdgeWeight : ℚ)
    (hA : (modulesA.map (·.1)).Nodup) (hB : (modulesB.map (·.1)).Nodup) :
    ((alignModulesByJaccardGreedy modulesA modulesB minEdgeWeight).mapping.map
      (·.from_uid)).Nodup ∧
    ((alignModulesByJaccardGreedy modulesA modulesB minEdgeWeight).mapping.map
      (·.to_uid)).Nodup ∧
    (alignModulesByJaccardGreedy modulesA modulesB minEdgeWeight).mapping.length +
      (alignModulesByJaccardGreedy modulesA modulesB minEdgeWeight).removed.length =
      modulesA.length ∧
    (alignModulesByJaccardGreedy modulesA modulesB minEdgeWeight).mapping.length +
      (alignModulesByJaccardGreedy modulesA modulesB minEdgeWeight).added.length =
      modulesB.length := by
  set al := alignModulesByJaccardGreedy modulesA modulesB minEdgeWeight with hal
  set uidsA := modulesA.map (·.1) with huidsA
  set uidsB := modulesB.map (·.1) with huidsB
  set weights := buildWeights modulesA modulesB minEdgeWeight with hweights
  set pairs := greedyMatching weights with hpairs
  set mapping0 := pairs.map (fun p =>
    ModuleMapping.mk (uidsA.getD p.1 "") (uidsB.getD p.2.1 "") p.2.2) with hmapping0
  have hbounds : ∀ p ∈ pairs, p.1 < modulesA.length ∧ p.2.1 < modulesB.length := by
    intro p hp
    exact buildWeights_bounds modulesA modulesB minEdgeWeight _
      (greedyMatching_mem weights p hp)
  have hlenA : uidsA.length = modulesA.length := by rw [huidsA, List.length_map]
  have hlenB : uidsB.length = modulesB.length := by rw [huidsB, List.length_map]
  -- the un-sorted mapping lists
  have hifst : (mapping0.map (·.from_uid)) =
      (pairs.map (·.1)).map (fun i => uidsA.getD i "") := by
    rw [hmapping0, List.map_map, List.map_map]; rfl
  have hisnd : (mapping0.map (·.to_uid)) =
      (pairs.map (·.2.1)).map (fun j => uidsB.getD j "") := by
    rw [hmapping0, List.map_map, List.map_map]; rfl
  have hgetA : ∀ i < modulesA.length, ∀ i' < modulesA.length,
      uidsA.getD i "" = uidsA.getD i' "" → i = i' := by
    intro i hi i' hi' heq
    rw [List.getD_eq_getElem?_getD, List.getD_eq_getElem?_getD] at heq
    rw [List.getElem?_eq_getElem (by omega), List.getElem?_eq_getElem (by omega)] at heq
    simp only [Option.getD_some] at heq
    exact (List.Nodup.getElem_inj_iff hA).mp heq
  have hgetB : ∀ j < modulesB.length, ∀ j' < modulesB.length,
      uidsB.getD j "" = uidsB.getD j' "" → j = j' := by
    intro j hj j' hj' heq
    rw [List.getD_eq_getElem?_getD, List.getD_eq_getElem?_getD] at heq
    rw [List.getElem?_eq_getElem (by omega), List.getElem?_eq_getElem (by omega)] at heq
    simp only [Option.getD_some] at heq
    exact (List.Nodup.getElem_inj_iff hB).mp heq
  have hfstNodup : (mapping0.map (·.from_uid)).Nodup := by
    rw [hifst]
    apply List.Nodup.map_on _ (greedyGo_fst_props _ [] []).2
    intro i hi i' hi' heq
    rw [List.mem_map] at hi hi'
    obtain ⟨p, hp, hpi⟩ := hi
    obtain ⟨p', hp', hpi'⟩ := hi'
    exact hgetA i (hpi ▸ (hbounds p hp).1) i' (hpi' ▸ (hbounds p' hp').1) heq
  have hsndNodup : (mapping0.map (·.to_uid)).Nodup := by
    rw [hisnd]
    apply List.Nodup.map_on _ (greedyGo_snd_props _ [] []).2
    intro j hj j' hj' heq
    rw [List.mem_map] at hj hj'
    obtain ⟨p, hp, hpj⟩ := hj
    obtain ⟨p', hp', hpj'⟩ := hj'
    exact hgetB j (hpj ▸ (hbounds p hp).2) j' (hpj' ▸ (hbounds p' hp').2) heq
  -- the final mapping is a sorted permutation of mapping0
  have hpermmap : List.Perm (List.insertionSort (fun x y => x.score ≥ y.score) mapping0) mapping0 :=
    List.perm_insertionSort _ _
  have halmap : al.mapping = List.insertionSort (fun x y => x.score ≥ y.score) mapping0 := rfl
  have hmapfrom : List.Perm (al.mapping.map (·.from_uid)) (mapping0.map (·.from_uid)) := by
    rw [halmap]; exact hpermmap.map _
  have hmapto : List.Perm (al.mapping.map (·.to_uid)) (mapping0.map (·.to_uid)) := by
    rw [halmap]; exact hpermmap.map _
  refine ⟨hmapfrom.nodup_iff.mpr hfstNodup, hmapto.nodup_iff.mpr hsndNodup, ?_, ?_⟩
  · -- |mapping| + |removed| = |A|
    have hmemA : ∀ x ∈ mapping0.map (·.from_uid), x ∈ uidsA := by
      rw [hifst]
      intro x hx
      rw [List.map_map, List.mem_map] at hx
      obtain ⟨p, hp, hpx⟩ := hx
      have hlt := (hbounds p hp).1
      rw [← hpx]
      show uidsA.getD p.1 "" ∈ uidsA
      have heq : uidsA.getD p.1 "" = uidsA.get ⟨p.1, by omega⟩ := by
        rw [List.getD_eq_getElem?_getD, List.getElem?_eq_getElem (by omega)]
        simp [List.get_eq_getElem]
      rw [heq]
      exact List.get_mem _ _ _
    have hrem : al.removed = List.insertionSort (· ≤ ·)
        (uidsA.filter (fun ua => !(mapping0.map (·.from_uid)).contains ua)) := rfl
    have hremlen : al.removed.length =
        (uidsA.filter (fun ua => !(mapping0.map (·.from_uid)).contains ua)).length := by
      rw [hrem]
      exact (List.perm_insertionSort _ _).length_eq
    have hsplit : (uidsA.filter (fun ua => (mapping0.map (·.from_uid)).contains ua)).length +
        (uidsA.filter (fun ua => !(mapping0.map (·.from_uid)).contains ua)).length =
          uidsA.length := by
      have hc := List.length_eq_countP_add_countP
        (fun ua => (mapping0.map (·.from_uid)).contains ua) uidsA
      rw [List.countP_eq_length_filter, List.countP_eq_length_filter] at hc
      have hneg : (uidsA.filter
          (fun a => decide ¬((mapping0.map (·.from_uid)).contains a = true))) =
          (uidsA.filter (fun ua => !(mapping0.map (·.from_uid)).contains ua)) := by
        apply List.filter_congr
        intro x _
        cases hx : (mapping0.map (·.from_uid)).contains x <;> simp [hx]
      rw [hneg] at hc
      omega
    have hcontains : (uidsA.filter (fun ua => (mapping0.map (·.from_uid)).contains ua)) =
        (uidsA.filter (fun ua => ua ∈ (mapping0.map (·.from_uid)))) := by
      apply List.filter_congr
      intro x _
      simp [List.contains, List.elem_iff]
    have hfiltlen : (uidsA.filter (fun ua => (mapping0.map (·.from_uid)).contains ua)).length =
        (mapping0.map (·.from_uid)).length := by
      rw [hcontains]
      exact length_filter_mem_of_nodup uidsA _ hA hfstNodup hmemA
    have hmaplen : al.mapping.length = mapping0.length := by
      rw [halmap]; exact hpermmap.length_eq
    have : (mapping0.map (·.from_uid)).length = mapping0.length := List.length_map _ _
    omega
  · -- |mapping| + |added| = |B|
    have hmemB : ∀ x ∈ mapping0.map (·.to_uid), x ∈ uidsB := by
      rw [hisnd]
      intro x hx
      rw [List.map_map, List.mem_map] at hx
      obtain ⟨p, hp, hpx⟩ := hx
      have hlt := (hbounds p hp).2
      rw [← hpx]
      show uidsB.getD p.2.1 "" ∈ uidsB
      have heq : uidsB.getD p.2.1 "" = uidsB.get ⟨p.2.1, by omega⟩ := by
        rw [List.getD_eq_getElem?_getD, List.getElem?_eq_getElem (by omega)]
        simp [List.get_eq_getElem]
      rw [heq]
      exact List.get_mem _ _ _
    have hadd : al.added = List.insertionSort (· ≤ ·)
        (uidsB.filter (fun ub => !(mapping0.map (·.to_uid)).contains ub)) := rfl
    have haddlen : al.added.length =
        (uidsB.filter (fun ub => !(mapping0.map (·.to_uid)).contains ub)).length := by
      rw [hadd]
      exact (List.perm_insertionSort _ _).length_eq
    have hsplit : (uidsB.filter (fun ub => (mapping0.map (·.to_uid)).contains ub)).length +
        (uidsB.filter (fun ub => !(mapping0.map (·.to_uid)).contains ub)).length =
          uidsB.length := by
      have hc := List.length_eq_countP_add_countP
        (fun ub => (mapping0.map (·.to_uid)).contains ub) uidsB
      rw [List.countP_eq_length_filter, List.countP_eq_length_filter] at hc
      have hneg : (uidsB.filter
          (fun a => decide ¬((mapping0.map (·.to_uid)).contains a = true))) =
          (uidsB.filter (fun ub => !(mapping0.map (·.to_uid)).contains ub)) := by
        apply List.filter_congr
        intro x _
        cases hx : (mapping0.map (·.to_uid)).contains x <;> simp [hx]
      rw [hneg] at hc
      omega
    have hcontains : (uidsB.filter (fun ub => (mapping0.map (·.to_uid)).contains ub)) =
        (uidsB.filter (fun ub => ub ∈ (mapping0.map (·.to_uid)))) := by
      apply List.filter_congr
      intro x _
      simp [List.contains, List.elem_iff]
    have hfiltlen : (uidsB.filter (fun ub => (mapping0.map (·.to_uid)).contains ub)).length =
        (mapping0.map (·.to_uid)).length := by
      rw [hcontains]
      exact length_filter_mem_of_nodup uidsB _ hB hsndNodup hmemB
    have hmaplen : al.mapping.length = mapping0.length := by
      rw [halmap]; exact hpermmap.length_eq
    have : (mapping0.map (·.to_uid)).length = mapping0.length := List.length_map _ _
    omega

/-- Witness for C5 at the spec's end-to-end scenario snapshots. -/
theorem aligner_matching_invariants_witness :
    ((alignModulesByJaccardGreedy
        [("X#1", ({"a.c", "b.c"} : Finset String)), ("Y#1", {"c.c"})]
        [("X#1", ({"a.c", "b.c", "d.c"} : Finset String)), ("Z#1", {"e.c"})] 0).mapping.map
      (·.from_uid)).Nodup ∧
    ((alignModulesByJaccardGreedy
        [("X#1", ({"a.c", "b.c"} : Finset String)), ("Y#1", {"c.c"})]
        [("X#1", ({"a.c", "b.c", "d.c"} : Finset String)), ("Z#1", {"e.c"})] 0).mapping.map
      (·.to_uid)).Nodup ∧
    (alignModulesByJaccardGreedy
        [("X#1", ({"a.c", "b.c"} : Finset String)), ("Y#1", {"c.c"})]
        [("X#1", ({"a.c", "b.c", "d.c"} : Finset String)), ("Z#1", {"e.c"})] 0).mapping.length +
      (alignModulesByJaccardGreedy
        [("X#1", ({"a.c", "b.c"} : Finset String)), ("Y#1", {"c.c"})]
        [("X#1", ({"a.c", "b.c", "d.c"} : Finset String)), ("Z#1", {"e.c"})] 0).removed.length =
      2 ∧
    (alignModulesByJaccardGreedy
        [("X#1", ({"a.c", "b.c"} : Finset String)), ("Y#1", {"c.c"})]
        [("X#1", ({"a.c", "b.c", "d.c"} : Finset String)), ("Z#1", {"e.c"})] 0).mapping.length +
      (alignModulesByJaccardGreedy
        [("X#1", ({"a.c", "b.c"} : Finset String)), ("Y#1", {"c.c"})]
        [("X#1", ({"a.c", "b.c", "d.c"} : Finset String)), ("Z#1", {"e.c"})] 0).added.length =
      2 :=
  aligner_matching_invariants
    [("X#1", ({"a.c", "b.c"} : Finset String)), ("Y#1", {"c.c"})]
    [("X#1", ({"a.c", "b.c", "d.c"} : Finset String)), ("Z#1", {"e.c"})] 0
    (by decide) (by decide)

/-! ### Determinism of the greedy fallback -/

theorem pairwise_ne_of_map_nodup {α β : Type} {f : α → β} :
    ∀ {l : List α}, (l.map f).Nodup → l.Pairwise (fun a b => f a ≠ f b) := by
  intro l
  induction l with
  | nil => intro; exact List.Pairwise.nil
  | cons a rest ih =>
    intro h
    rw [List.map_cons, List.nodup_cons] at h
    refine List.Pairwise.cons ?_ (ih h.2)
    intro b hb heq
    exact h.1 (heq ▸ List.mem_map_of_mem f hb)

/-- C4 (amended): the greedy fallback sorts the candidate edges only by
weight (a stable sort), so ties are broken by the enumeration order of
the edges rather than by uid; two enumerations of the same edge set are
guaranteed to produce the same matching when all edge weights are
pairwise distinct. -/
theorem greedy_matching_deterministic_distinct_weights
    (l1 l2 : List ((Nat × Nat) × ℚ)) (hperm : List.Perm l1 l2)
    (hw : (l1.map (·.2)).Nodup) :
    greedyMatching l1 = greedyMatching l2 := by
  haveI hTot : IsTotal ((Nat × Nat) × ℚ) (fun x y => x.2 ≥ y.2) :=
    ⟨fun a b => le_total b.2 a.2⟩
  haveI hTrans : IsTrans ((Nat × Nat) × ℚ) (fun x y => x.2 ≥ y.2) :=
    ⟨fun _ _ _ h1 h2 => le_trans h2 h1⟩
  haveI hAnti : IsAntisymm ((Nat × Nat) × ℚ) (fun x y => x.2 > y.2) :=
    ⟨fun a b h1 h2 => absurd h1 (lt_asymm h2)⟩
  set s1 := List.insertionSort (fun x y => x.2 ≥ y.2) l1 with hs1def
  set s2 := List.insertionSort (fun x y => x.2 ≥ y.2) l2 with hs2def
  have hp1 : List.Perm s1 l1 := List.perm_insertionSort _ _
  have hp2 : List.Perm s2 l2 := List.perm_insertionSort _ _
  have hps : List.Perm s1 s2 := hp1.trans (hperm.trans hp2.symm)
  have hsort1 : s1.Sorted (fun x y => x.2 ≥ y.2) := List.sorted_insertionSort _ _
  have hsort2 : s2.Sorted (fun x y => x.2 ≥ y.2) := List.sorted_insertionSort _ _
  have hw1 : (s1.map (·.2)).Nodup := ((hp1.map (·.2)).nodup_iff).mpr hw
  have hw2 : (s2.map (·.2)).Nodup :=
    ((hp2.map (·.2)).nodup_iff).mpr (((hperm.map (·.2)).nodup_iff).mp hw)
  have hstrict : ∀ (s : List ((Nat × Nat) × ℚ)),
      s.Sorted (fun x y => x.2 ≥ y.2) → (s.map (·.2)).Nodup →
      s.Sorted (fun x y => x.2 > y.2) := by
    intro s hsorted hnodup
    have hne := pairwise_ne_of_map_nodup hnodup
    exact (hsorted.and hne).imp (fun h => lt_of_le_of_ne h.1 (Ne.symm h.2))
  have heq : s1 = s2 :=
    List.eq_of_perm_of_sorted hps (hstrict s1 hsort1 hw1) (hstrict s2 hsort2 hw2)
  unfold greedyMatching
  rw [← hs1def, ← hs2def, heq]

/-- Witness for C4 at a concrete input: two enumerations of a two-edge
set with distinct weights. -/
theorem greedy_matching_deterministic_distinct_weights_witness :
    greedyMatching [((0, 0), (1 : ℚ)/2), ((1, 1), (3 : ℚ)/4)] =
      greedyMatching [((1, 1), (3 : ℚ)/4), ((0, 0), (1 : ℚ)/2)] :=
  greedy_matching_deterministic_distinct_weights _ _
    (List.Perm.swap _ _ _) (by norm_num)

/-- C4 counterexample: the greedy fallback does NOT break ties by uid
lexical order — on a four-edge set whose weights are all equal, two
enumerations of the same edge set yield different matchings (the stable
sort keeps enumeration order, and the greedy scan follows it). -/
theorem greedy_tie_break_counterexample :
    List.Perm
      [((0, 0), (1 : ℚ)/2), ((1, 1), (1 : ℚ)/2), ((0, 1), (1 : ℚ)/2), ((1, 0), (1 : ℚ)/2)]
      [((0, 1), (1 : ℚ)/2), ((1, 0), (1 : ℚ)/2), ((0, 0), (1 : ℚ)/2), ((1, 1), (1 : ℚ)/2)] ∧
    greedyMatching
      [((0, 0), (1 : ℚ)/2), ((1, 1), (1 : ℚ)/2), ((0, 1), (1 : ℚ)/2), ((1, 0), (1 : ℚ)/2)] ≠
    greedyMatching
      [((0, 1), (1 : ℚ)/2), ((1, 0), (1 : ℚ)/2), ((0, 0), (1 : ℚ)/2), ((1, 1), (1 : ℚ)/2)] := by
  constructor
  · exact @List.perm_append_comm _
      [((0, 0), (1 : ℚ)/2), ((1, 1), (1 : ℚ)/2)]
      [((0, 1), (1 : ℚ)/2), ((1, 0), (1 : ℚ)/2)]
  · intro h
    have h1 : greedyMatching
        [((0, 0), (1 : ℚ)/2), ((1, 1), (1 : ℚ)/2), ((0, 1), (1 : ℚ)/2), ((1, 0), (1 : ℚ)/2)] =
        [(0, 0, (1 : ℚ)/2), (1, 1, (1 : ℚ)/2)] := by
      norm_num [greedyMatching, greedyGo, List.insertionSort, List.orderedInsert]
    have h2 : greedyMatching
        [((0, 1), (1 : ℚ)/2), ((1, 0), (1 : ℚ)/2), ((0, 0), (1 : ℚ)/2), ((1, 1), (1 : ℚ)/2)] =
        [(0, 1, (1 : ℚ)/2), (1, 0, (1 : ℚ)/2)] := by
      norm_num [greedyMatching, greedyGo, List.insertionSort, List.orderedInsert]
    rw [h1, h2] at h
    simp at h

/-! ### Characterisation of the events of `build_module_level_events` -/

theorem mem_removedEvents_type (aMod : List Module) :
    ∀ (uids : List String) (n : Nat) (ev : ChangeEvent),
      ev ∈ (removedEvents aMod uids n).1 → ev.type = "module_removed" := by
  intro uids
  induction uids with
  | nil => intro n ev h; simp [removedEvents] at h
  | cons uid rest ih =>
    intro n ev h
    unfold removedEvents at h
    rcases hc : lookupMod aMod uid with _ | m <;> rw [hc] at h
    · exact ih n ev h
    · rcases List.mem_cons.mp h with h | h
      · subst h; rfl
      · exact ih (n + 1) ev h

theorem mem_addedEvents_type (bMod : List Module) :
    ∀ (uids : List String) (n : Nat) (ev : ChangeEvent),
      ev ∈ (addedEvents bMod uids n).1 → ev.type = "module_added" := by
  intro uids
  induction uids with
  | nil => intro n ev h; simp [addedEvents] at h
  | cons uid rest ih =>
    intro n ev h
    unfold addedEvents at h
    rcases hc : lookupMod bMod uid with _ | m <;> rw [hc] at h
    · exact ih n ev h
    · rcases List.mem_cons.mp h with h | h
      · subst h; rfl
      · exact ih (n + 1) ev h

theorem mem_renamedEventsForPair_type (mm : ModuleMapping) (ma mb : Module) (n : Nat)
    (ev : ChangeEvent) (h : ev ∈ (renamedEventsForPair mm ma mb n).1) :
    ev.type = "module_renamed" := by
  unfold renamedEventsForPair at h
  dsimp only at h
  split at h
  · rcases List.mem_singleton.mp h with h; subst h; rfl
  · simp at h

theorem mem_compEventsForPair_type (compA compB : Option ComponentMapping)
    (mm : ModuleMapping) (ma mb : Module) (n : Nat)
    (ev : ChangeEvent) (h : ev ∈ (compEventsForPair compA compB mm ma mb n).1) :
    ev.type = "module_component_changed" := by
  unfold compEventsForPair at h
  rcases compA with _ | ca <;> rcases compB with _ | cb
  · exact absurd h (List.not_mem_nil ev)
  · exact absurd h (List.not_mem_nil ev)
  · exact absurd h (List.not_mem_nil ev)
  · dsimp only at h
    rcases hx : lookupStr ca.module_uid_to_component ma.uid with _ | x <;>
      rcases hy : lookupStr cb.module_uid_to_component mb.uid with _ | y <;>
      rw [hx, hy] at h
    · exact absurd h (List.not_mem_nil ev)
    · exact absurd h (List.not_mem_nil ev)
    · exact absurd h (List.not_mem_nil ev)
    · dsimp only at h
      by_cases hcc : x ≠ "" ∧ y ≠ "" ∧ x ≠ y
      · rw [if_pos hcc] at h
        rcases List.mem_singleton.mp h with h; subst h; rfl
      · rw [if_neg hcc] at h
        exact absurd h (List.not_mem_nil ev)

theorem mem_changedEventsForPair (compA compB : Option ComponentMapping)
    (codesemA codesemB : Option CodeSemIndex) (archsemA archsemB : Option ArchSemIndex)
    (topKFiles minFileDelta : Nat) (mm : ModuleMapping) (ma mb : Module) (n : Nat)
    (ev : ChangeEvent)
    (h : ev ∈ (changedEventsForPair compA compB codesemA codesemB archsemA archsemB
        topKFiles minFileDelta mm ma mb n).1) :
    ev.type = "module_changed" ∧
    minFileDelta ≤ pairDelta ma mb ∧
    ev.confidence = changedConfidence mm.score ma mb ∧
    getVal ev.detail "from_module_uid" = some (.vs ma.uid) ∧
    getVal ev.detail "to_module_uid" = some (.vs mb.uid) ∧
    getVal ev.detail "delta_ratio" = none ∧
    getVal (dictOrEmpty (getVal ev.detail "counts")) "delta_ratio" =
      some (.vq (pyRound 6 (pairDeltaRatio ma mb))) := by
  unfold changedEventsForPair at h
  split at h
  · rename_i hdelta
    rcases List.mem_singleton.mp h with h
    subst h
    exact ⟨rfl, hdelta, rfl, rfl, rfl, rfl, rfl⟩
  · exact absurd h (List.not_mem_nil ev)

theorem changedEventsForPair_ne_nil (compA compB : Option ComponentMapping)
    (codesemA codesemB : Option CodeSemIndex) (archsemA archsemB : Option ArchSemIndex)
    (topKFiles minFileDelta : Nat) (mm : ModuleMapping) (ma mb : Module) (n : Nat)
    (hd : minFileDelta ≤ pairDelta ma mb) :
    ∃ ev ∈ (changedEventsForPair compA compB codesemA codesemB archsemA archsemB
        topKFiles minFileDelta mm ma mb n).1, ev.type = "module_changed" ∧
      getVal ev.detail "from_module_uid" = some (.vs ma.uid) ∧
      getVal ev.detail "to_module_uid" = some (.vs mb.uid) := by
  unfold changedEventsForPair
  rw [if_pos hd]
  exact ⟨_, List.mem_singleton.mpr rfl, rfl, rfl, rfl⟩

theorem mem_pairEvents_elim (aMod bMod : List Module) (compA compB : Option ComponentMapping)
    (codesemA codesemB : Option CodeSemIndex) (archsemA archsemB : Option ArchSemIndex)
    (topKFiles minFileDelta : Nat) (minJaccardToAccept : ℚ) (mm : ModuleMapping) (n : Nat)
    (ev : ChangeEvent)
    (h : ev ∈ (pairEvents aMod bMod compA compB codesemA codesemB archsemA archsemB
        topKFiles minFileDelta minJaccardToAccept mm n).1) :
    ∃ ma mb, lookupMod aMod mm.from_uid = some ma ∧ lookupMod bMod mm.to_uid = some mb ∧
      ¬(mm.score < minJaccardToAccept) ∧
      (ev.type = "module_renamed" ∨ ev.type = "module_component_changed" ∨
        (ev ∈ (changedEventsForPair compA compB codesemA codesemB archsemA archsemB
          topKFiles minFileDelta mm ma mb
            ((compEventsForPair compA compB mm ma mb
              ((renamedEventsForPair mm ma mb n).2)).2)).1)) := by
  unfold pairEvents at h
  rcases hma : lookupMod aMod mm.from_uid with _ | ma <;>
    rcases hmb : lookupMod bMod mm.to_uid with _ | mb <;> rw [hma, hmb] at h
  · simp at h
  · simp at h
  · simp at h
  · simp only at h
    split at h
    · simp at h
    · rename_i hsc
      refine ⟨ma, mb, rfl, rfl, hsc, ?_⟩
      rw [List.append_assoc] at h
      rcases List.mem_append.mp h with h | h
      · exact Or.inl (mem_renamedEventsForPair_type mm ma mb n ev h)
      · rcases List.mem_append.mp h with h | h
        · exact Or.inr (Or.inl (mem_compEventsForPair_type compA compB mm ma mb _ ev h))
        · exact Or.inr (Or.inr h)

theorem pairEvents_emits_changed (aMod bMod : List Module)
    (compA compB : Option ComponentMapping)
    (codesemA codesemB : Option CodeSemIndex) (archsemA archsemB : Option ArchSemIndex)
    (topKFiles minFileDelta : Nat) (minJaccardToAccept : ℚ) (mm : ModuleMapping) (n : Nat)
    (ma mb : Module)
    (hma : lookupMod aMod mm.from_uid = some ma)
    (hmb : lookupMod bMod mm.to_uid = some mb)
    (hsc : ¬(mm.score < minJaccardToAccept))
    (hd : minFileDelta ≤ pairDelta ma mb) :
    ∃ ev ∈ (pairEvents aMod bMod compA compB codesemA codesemB archsemA archsemB
        topKFiles minFileDelta minJaccardToAccept mm n).1, ev.type = "module_changed" ∧
      getVal ev.detail "from_module_uid" = some (.vs ma.uid) ∧
      getVal ev.detail "to_module_uid" = some (.vs mb.uid) := by
  unfold pairEvents
  rw [hma, hmb]
  simp only
  rw [if_neg hsc]
  obtain ⟨ev, hev, hprops⟩ := changedEventsForPair_ne_nil compA compB codesemA codesemB
    archsemA archsemB topKFiles minFileDelta mm ma mb
    ((compEventsForPair compA compB mm ma mb ((renamedEventsForPair mm ma mb n).2)).2) hd
  exact ⟨ev, by
    rw [List.append_assoc]
    exact List.mem_append.mpr (Or.inr (List.mem_append.mpr (Or.inr hev))), hprops⟩

theorem mem_mappedEvents_elim (aMod bMod : List Module)
    (compA compB : Option ComponentMapping)
    (codesemA codesemB : Option CodeSemIndex) (archsemA archsemB : Option ArchSemIndex)
    (topKFiles minFileDelta : Nat) (minJaccardToAccept : ℚ) :
    ∀ (mms : List ModuleMapping) (n : Nat) (ev : ChangeEvent),
      ev ∈ (mappedEvents aMod bMod compA compB codesemA codesemB archsemA archsemB
        topKFiles minFileDelta minJaccardToAccept mms n).1 →
      ∃ mm ∈ mms, ∃ k, ev ∈ (pairEvents aMod bMod compA compB codesemA codesemB
        archsemA archsemB topKFiles minFileDelta minJaccardToAccept mm k).1 := by
  intro mms
  induction mms with
  | nil => intro n ev h; simp [mappedEvents] at h
  | cons mm rest ih =>
    intro n ev h
    unfold mappedEvents at h
    simp only at h
    rcases List.mem_append.mp h with h | h
    · exact ⟨mm, List.mem_cons_self _ _, n, h⟩
    · obtain ⟨mm', hmm', k, hk⟩ := ih _ ev h
      exact ⟨mm', List.mem_cons_of_mem _ hmm', k, hk⟩

theorem mem_mappedEvents_intro (aMod bMod : List Module)
    (compA compB : Option ComponentMapping)
    (codesemA codesemB : Option CodeSemIndex) (archsemA archsemB : Option ArchSemIndex)
    (topKFiles minFileDelta : Nat) (minJaccardToAccept : ℚ)
    (P : ChangeEvent → Prop) :
    ∀ (mms : List ModuleMapping) (n : Nat) (mm : ModuleMapping), mm ∈ mms →
      (∀ k, ∃ ev ∈ (pairEvents aMod bMod compA compB codesemA codesemB archsemA archsemB
        topKFiles minFileDelta minJaccardToAccept mm k).1, P ev) →
      ∃ ev ∈ (mappedEvents aMod bMod compA compB codesemA codesemB archsemA archsemB
        topKFiles minFileDelta minJaccardToAccept mms n).1, P ev := by
  intro mms
  induction mms with
  | nil => intro n mm h; simp at h
  | cons mm' rest ih =>
    intro n mm hmm hall
    unfold mappedEvents
    simp only
    rcases List.mem_cons.mp hmm with h | h
    · subst h
      obtain ⟨ev, hev, hP⟩ := hall n
      exact ⟨ev, List.mem_append.mpr (Or.inl hev), hP⟩
    · obtain ⟨ev, hev, hP⟩ := ih _ mm h hall
      exact ⟨ev, List.mem_append.mpr (Or.inr hev), hP⟩

theorem mem_buildModuleLevelEvents_elim (idxA idxB : NamedClustersIndex)
    (compA compB : Option ComponentMapping) (alignment : A2AAlignment)
    (nextIdStart topKFiles minFileDelta : Nat) (minJaccardToAccept : ℚ)
    (codesemA codesemB : Option CodeSemIndex) (archsemA archsemB : Option ArchSemIndex)
    (ev : ChangeEvent)
    (h : ev ∈ (buildModuleLevelEvents idxA idxB compA compB alignment nextIdStart
        topKFiles minFileDelta minJaccardToAccept codesemA codesemB archsemA archsemB).1) :
    ev.type = "module_removed" ∨ ev.type = "module_added" ∨
    ∃ mm ∈ alignment.mapping, ∃ k,
      ev ∈ (pairEvents idxA.modules idxB.modules compA compB codesemA codesemB
        archsemA archsemB topKFiles minFileDelta minJaccardToAccept mm k).1 := by
  unfold buildModuleLevelEvents at h
  simp only at h
  rw [List.append_assoc] at h
  rcases List.mem_append.mp h with h | h
  · exact Or.inl (mem_removedEvents_type _ _ _ ev h)
  · rcases List.mem_append.mp h with h | h
    · exact Or.inr (Or.inl (mem_addedEvents_type _ _ _ ev h))
    · exact Or.inr (Or.inr (mem_mappedEvents_elim _ _ _ _ _ _ _ _ _ _ _ _ _ ev h))

theorem mem_buildModuleLevelEvents_intro (idxA idxB : NamedClustersIndex)
    (compA compB : Option ComponentMapping) (alignment : A2AAlignment)
    (nextIdStart topKFiles minFileDelta : Nat) (minJaccardToAccept : ℚ)
    (codesemA codesemB : Option CodeSemIndex) (archsemA archsemB : Option ArchSemIndex)
    (P : ChangeEvent → Prop) (mm : ModuleMapping) (hmm : mm ∈ alignment.mapping)
    (hall : ∀ k, ∃ ev ∈ (pairEvents idxA.modules idxB.modules compA compB codesemA codesemB
        archsemA archsemB topKFiles minFileDelta minJaccardToAccept mm k).1, P ev) :
    ∃ ev ∈ (buildModuleLevelEvents idxA idxB compA compB alignment nextIdStart
        topKFiles minFileDelta minJaccardToAccept codesemA codesemB archsemA archsemB).1,
      P ev := by
  unfold buildModuleLevelEvents
  simp only
  obtain ⟨ev, hev, hP⟩ := mem_mappedEvents_intro idxA.modules idxB.modules compA compB
    codesemA codesemB archsemA archsemB topKFiles minFileDelta minJaccardToAccept P
    alignment.mapping _ mm hmm hall
  refine ⟨ev, ?_, hP⟩
  rw [List.append_assoc]
  exact List.mem_append.mpr (Or.inr (List.mem_append.mpr (Or.inr hev)))

theorem lookupMod_uid (mods : List Module) (uid : String) (m : Module)
    (h : lookupMod mods uid = some m) : m.uid = uid := by
  unfold lookupMod at h
  have := List.find?_some h
  simpa using this

theorem pairDelta_eq_card (ma mb : Module) :
    pairDelta ma mb = (mb.files \ ma.files).card + (ma.files \ mb.files).card := by
  unfold pairDelta addedCount removedCount sortedFiles
  rw [Finset.length_sort, Finset.length_sort]

theorem union_card_ne_zero_of_delta (ma mb : Module) (hd : 1 ≤ pairDelta ma mb) :
    (ma.files ∪ mb.files).card ≠ 0 := by
  intro h0
  rw [Finset.card_eq_zero] at h0
  obtain ⟨hA, hB⟩ := Finset.union_eq_empty.mp h0
  rw [pairDelta_eq_card, hA, hB] at hd
  simp at hd

theorem pairDeltaRatio_of_delta (ma mb : Module) (hd : 1 ≤ pairDelta ma mb) :
    pairDeltaRatio ma mb = (pairDelta ma mb : ℚ) / ((ma.files ∪ mb.files).card : ℚ) := by
  unfold pairDeltaRatio
  dsimp only
  rw [if_neg (union_card_ne_zero_of_delta ma mb hd)]

/-- C6: for a matched pair whose mapping score reaches
`min_jaccard_to_accept`, `build_module_level_events` emits a
`module_changed` event for that pair iff `added + removed ≥
min_file_delta` (with `min_file_delta ≥ 1`, as the default), and every
such event's confidence is `score × (1 − 0.5 × delta_ratio)` clamped to
`[0.55, 0.95]`, with `delta_ratio = delta ÷ |A∪B|`. -/
theorem changed_event_emission_and_confidence (idxA idxB : NamedClustersIndex)
    (compA compB : Option ComponentMapping) (alignment : A2AAlignment)
    (nextIdStart topKFiles minFileDelta : Nat) (minJaccardToAccept : ℚ)
    (codesemA codesemB : Option CodeSemIndex) (archsemA archsemB : Option ArchSemIndex)
    (mm : ModuleMapping) (ma mb : Module)
    (hmm : mm ∈ alignment.mapping)
    (hma : lookupMod idxA.modules mm.from_uid = some ma)
    (hmb : lookupMod idxB.modules mm.to_uid = some mb)
    (hsc : minJaccardToAccept ≤ mm.score)
    (hmfd : 1 ≤ minFileDelta)
    (hnodup : (alignment.mapping.map (·.from_uid)).Nodup) :
    ((∃ ev ∈ (buildModuleLevelEvents idxA idxB compA compB alignment nextIdStart
        topKFiles minFileDelta minJaccardToAccept codesemA codesemB archsemA archsemB).1,
        ev.type = "module_changed" ∧
        getVal ev.detail "from_module_uid" = some (.vs ma.uid) ∧
        getVal ev.detail "to_module_uid" = some (.vs mb.uid)) ↔
      minFileDelta ≤ pairDelta ma mb) ∧
    (∀ ev ∈ (buildModuleLevelEvents idxA idxB compA compB alignment nextIdStart
        topKFiles minFileDelta minJaccardToAccept codesemA codesemB archsemA archsemB).1,
      ev.type = "module_changed" →
      getVal ev.detail "from_module_uid" = some (.vs ma.uid) →
      ev.confidence = max (55/100) (min (95/100) (mm.score *
        (1 - 1/2 * ((pairDelta ma mb : ℚ) / ((ma.files ∪ mb.files).card : ℚ)))))) := by
  have hscn : ¬(mm.score < minJaccardToAccept) := not_lt.mpr hsc
  -- any module_changed event carrying ma's uid comes from exactly this pair
  have hanalyse : ∀ ev ∈ (buildModuleLevelEvents idxA idxB compA compB alignment nextIdStart
      topKFiles minFileDelta minJaccardToAccept codesemA codesemB archsemA archsemB).1,
      ev.type = "module_changed" →
      getVal ev.detail "from_module_uid" = some (.vs ma.uid) →
      minFileDelta ≤ pairDelta ma mb ∧ ev.confidence = changedConfidence mm.score ma mb := by
    intro ev hev htype hfrom
    rcases mem_buildModuleLevelEvents_elim idxA idxB compA compB alignment nextIdStart
        topKFiles minFileDelta minJaccardToAccept codesemA codesemB archsemA archsemB ev hev with
      h | h | ⟨mm2, hmm2, k, hk⟩
    · rw [htype] at h; exact absurd h (by decide)
    · rw [htype] at h; exact absurd h (by decide)
    · obtain ⟨ma2, mb2, hma2, hmb2, hsc2, hcase⟩ := mem_pairEvents_elim idxA.modules
        idxB.modules compA compB codesemA codesemB archsemA archsemB topKFiles minFileDelta
        minJaccardToAccept mm2 k ev hk
      rcases hcase with h | h | h
      · rw [htype] at h; exact absurd h (by decide)
      · rw [htype] at h; exact absurd h (by decide)
      · obtain ⟨_, hdelta, hconf, hfrom2, _, _, _⟩ := mem_changedEventsForPair compA compB
          codesemA codesemB archsemA archsemB topKFiles minFileDelta mm2 ma2 mb2 _ ev h
        -- identify the pair
        have huids : ma2.uid = ma.uid := by
          rw [hfrom2] at hfrom
          have := Option.some.inj hfrom
          injection this
        have hfromuid : mm2.from_uid = mm.from_uid := by
          rw [← lookupMod_uid idxA.modules mm2.from_uid ma2 hma2,
            ← lookupMod_uid idxA.modules mm.from_uid ma hma, huids]
        have hmmeq : mm2 = mm :=
          List.inj_on_of_nodup_map hnodup hmm2 hmm hfromuid
        subst hmmeq
        rw [hma2] at hma
        rw [hmb2] at hmb
        have hmaeq : ma2 = ma := Option.some.inj hma
        have hmbeq : mb2 = mb := Option.some.inj hmb
        subst hmaeq; subst hmbeq
        exact ⟨hdelta, hconf⟩
  constructor
  · constructor
    · intro ⟨ev, hev, htype, hfrom, _⟩
      exact (hanalyse ev hev htype hfrom).1
    · intro hd
      have := pairEvents_emits_changed idxA.modules idxB.modules compA compB codesemA
        codesemB archsemA archsemB topKFiles minFileDelta minJaccardToAccept mm
      obtain ⟨ev, hev, hP⟩ := mem_buildModuleLevelEvents_intro idxA idxB compA compB
        alignment nextIdStart topKFiles minFileDelta minJaccardToAccept codesemA codesemB
        archsemA archsemB (fun ev => ev.type = "module_changed" ∧
          getVal ev.detail "from_module_uid" = some (.vs ma.uid) ∧
          getVal ev.detail "to_module_uid" = some (.vs mb.uid)) mm hmm
        (fun k => this k ma mb hma hmb hscn hd)
      exact ⟨ev, hev, hP⟩
  · intro ev hev htype hfrom
    obtain ⟨hdelta, hconf⟩ := hanalyse ev hev htype hfrom
    rw [hconf]
    unfold changedConfidence
    rw [pairDeltaRatio_of_delta ma mb (le_trans hmfd hdelta)]

/-! ### Concrete fixtures for counterexamples and witnesses -/

def maMod : Module := ⟨"X#1", "X", {"a.c"}, 1⟩

def mbMod : Module := ⟨"X#1", "X", {"a.c", "d.c"}, 2⟩

def idxAc : NamedClustersIndex := ⟨[maMod], [("a.c", "X#1")], [], []⟩

def idxBc : NamedClustersIndex := ⟨[mbMod], [("a.c", "X#1"), ("d.c", "X#1")], [], []⟩

def alc : A2AAlignment := ⟨[⟨"X#1", "X#1", 1/2⟩], [], [], 1/2, []⟩

/-- Witness for C6 at the concrete fixtures: the pair gains one file, so
with `min_file_delta = 1` a `module_changed` event is emitted. -/
theorem changed_event_emission_and_confidence_witness :
    ((∃ ev ∈ (buildModuleLevelEvents idxAc idxBc none none alc 1 8 1 0
        none none none none).1,
        ev.type = "module_changed" ∧
        getVal ev.detail "from_module_uid" = some (.vs maMod.uid) ∧
        getVal ev.detail "to_module_uid" = some (.vs mbMod.uid)) ↔
      1 ≤ pairDelta maMod mbMod) ∧
    (∀ ev ∈ (buildModuleLevelEvents idxAc idxBc none none alc 1 8 1 0
        none none none none).1,
      ev.type = "module_changed" →
      getVal ev.detail "from_module_uid" = some (.vs maMod.uid) →
      ev.confidence = max (55/100) (min (95/100) (((1:ℚ)/2) *
        (1 - 1/2 * ((pairDelta maMod mbMod : ℚ) /
          ((maMod.files ∪ mbMod.files).card : ℚ)))))) :=
  changed_event_emission_and_confidence idxAc idxBc none none alc 1 8 1 0
    none none none none ⟨"X#1", "X#1", 1/2⟩ maMod mbMod
    (List.mem_singleton.mpr rfl) rfl rfl (by norm_num) (le_refl 1) (by simp [alc])

theorem structuralFactor_changed (d : List (String × Val))
    (h : getVal d "delta_ratio" = none) :
    structuralFactor "module_changed" d = some 0 := by
  unfold structuralFactor
  rw [if_pos rfl, h]
  rfl

theorem structuralFactor_added (d : List (String × Val)) :
    structuralFactor "module_added" d = some 1 := by
  unfold structuralFactor
  rw [if_neg (by decide), if_pos (Or.inl rfl)]

theorem structuralFactor_removed (d : List (String × Val)) :
    structuralFactor "module_removed" d = some 1 := by
  unfold structuralFactor
  rw [if_neg (by decide), if_pos (Or.inr rfl)]

theorem structuralFactor_component (d : List (String × Val)) :
    structuralFactor "module_component_changed" d = some (6/10) := by
  unfold structuralFactor
  rw [if_neg (by decide), if_neg (by decide), if_pos rfl]

theorem structuralFactor_other (t : String) (d : List (String × Val))
    (h1 : t ≠ "module_changed") (h2 : t ≠ "module_added") (h3 : t ≠ "module_removed")
    (h4 : t ≠ "module_component_changed") : structuralFactor t d = none := by
  unfold structuralFactor
  rw [if_neg h1, if_neg (by rw [not_or]; exact ⟨h2, h3⟩), if_neg h4]

theorem significance_zero_of_nonstructural (log : ℚ → ℚ) (w : Weights)
    (ev : ChangeEvent) (maxF : Int)
    (h : structuralFactor ev.type ev.detail = none) :
    computeArchitectureSignificance log w ev maxF = some 0 := by
  unfold computeArchitectureSignificance
  dsimp only
  rw [h]

theorem build_changed_no_top_delta_ratio (idxA idxB : NamedClustersIndex)
    (compA compB : Option ComponentMapping) (alignment : A2AAlignment)
    (nextIdStart topKFiles minFileDelta : Nat) (minJaccardToAccept : ℚ)
    (codesemA codesemB : Option CodeSemIndex) (archsemA archsemB : Option ArchSemIndex)
    (ev : ChangeEvent)
    (hev : ev ∈ (buildModuleLevelEvents idxA idxB compA compB alignment nextIdStart
        topKFiles minFileDelta minJaccardToAccept codesemA codesemB archsemA archsemB).1)
    (htype : ev.type = "module_changed") :
    getVal ev.detail "delta_ratio" = none := by
  rcases mem_buildModuleLevelEvents_elim idxA idxB compA compB alignment nextIdStart
      topKFiles minFileDelta minJaccardToAccept codesemA codesemB archsemA archsemB ev hev with
    h | h | ⟨mm2, hmm2, k, hk⟩
  · rw [htype] at h; exact absurd h (by decide)
  · rw [htype] at h; exact absurd h (by decide)
  · obtain ⟨ma2, mb2, _, _, _, hcase⟩ := mem_pairEvents_elim idxA.modules
      idxB.modules compA compB codesemA codesemB archsemA archsemB topKFiles minFileDelta
      minJaccardToAccept mm2 k ev hk
    rcases hcase with h | h | h
    · rw [htype] at h; exact absurd h (by decide)
    · rw [htype] at h; exact absurd h (by decide)
    · exact (mem_changedEventsForPair compA compB codesemA codesemB archsemA archsemB
        topKFiles minFileDelta mm2 ma2 mb2 _ ev h).2.2.2.2.2.1

/-- C3 (amended): the structural factor of the significance scorer is 1.0
for `module_added`/`module_removed`, 0.6 for `module_component_changed`
and the returned score is 0 for any other type — but for every
`module_changed` event produced by `build_module_level_events` the
structural factor is 0, NOT the event's `delta_ratio`: the scorer reads
top-level `detail["delta_ratio"]`, which the generator nests under
`detail["counts"]`. -/
theorem structural_factor_on_built_events (idxA idxB : NamedClustersIndex)
    (compA compB : Option ComponentMapping) (alignment : A2AAlignment)
    (nextIdStart topKFiles minFileDelta : Nat) (minJaccardToAccept : ℚ)
    (codesemA codesemB : Option CodeSemIndex) (archsemA archsemB : Option ArchSemIndex) :
    (∀ ev ∈ (buildModuleLevelEvents idxA idxB compA compB alignment nextIdStart
        topKFiles minFileDelta minJaccardToAccept codesemA codesemB archsemA archsemB).1,
      (ev.type = "module_changed" → structuralFactor ev.type ev.detail = some 0) ∧
      (ev.type = "module_added" ∨ ev.type = "module_removed" →
        structuralFactor ev.type ev.detail = some 1) ∧
      (ev.type = "module_component_changed" →
        structuralFactor ev.type ev.detail = some (6/10))) ∧
    (∀ (log : ℚ → ℚ) (w : Weights) (ev : ChangeEvent) (maxF : Int),
      structuralFactor ev.type ev.detail = none →
      computeArchitectureSignificance log w ev maxF = some 0) ∧
    (∀ (t : String) (d : List (String × Val)),
      t ≠ "module_changed" → t ≠ "module_added" → t ≠ "module_removed" →
      t ≠ "module_component_changed" → structuralFactor t d = none) := by
  refine ⟨?_, significance_zero_of_nonstructural, structuralFactor_other⟩
  intro ev hev
  refine ⟨?_, ?_, ?_⟩
  · intro htype
    rw [htype]
    exact structuralFactor_changed ev.detail
      (build_changed_no_top_delta_ratio idxA idxB compA compB alignment nextIdStart
        topKFiles minFileDelta minJaccardToAccept codesemA codesemB archsemA archsemB
        ev hev (by rw [htype]))
  · rintro (htype | htype) <;> rw [htype]
    · exact structuralFactor_added ev.detail
    · exact structuralFactor_removed ev.detail
  · intro htype
    rw [htype]
    exact structuralFactor_component ev.detail

/-- Witness for C3 at the concrete fixtures. -/
theorem structural_factor_on_built_events_witness :
    structuralFactor "module_added" [] = some 1 ∧
    (∀ ev ∈ (buildModuleLevelEvents idxAc idxBc none none alc 1 8 1 0
        none none none none).1,
      ev.type = "module_changed" → structuralFactor ev.type ev.detail = some 0) := by
  constructor
  · exact structuralFactor_added []
  · intro ev hev htype
    exact ((structural_factor_on_built_events idxAc idxBc none none alc 1 8 1 0
      none none none none).1 ev hev).1 htype

theorem pairDelta_fixture : pairDelta maMod mbMod = 1 := by
  rw [pairDelta_eq_card]
  decide

theorem pairDeltaRatio_fixture : pairDeltaRatio maMod mbMod = 1/2 := by
  rw [pairDeltaRatio_of_delta maMod mbMod (by rw [pairDelta_fixture]), pairDelta_fixture]
  rw [show ((maMod.files ∪ mbMod.files).card) = 2 from by decide]
  norm_num

theorem pyRound_half : pyRound 6 ((1:ℚ)/2) = 1/2 := by
  norm_num [pyRound, roundHalfEven]

theorem build_fixture_out :
    (buildModuleLevelEvents idxAc idxBc none none alc 1 8 1 0 none none none none).1 =
      [changedEvent none none none none none none 8 ((1:ℚ)/2) maMod mbMod 1] := by
  have hd : (1:ℕ) ≤ pairDelta maMod mbMod := by rw [pairDelta_fixture]
  have hren : renamedEventsForPair ⟨"X#1", "X#1", (1:ℚ)/2⟩ maMod mbMod 1 = ([], 1) := by
    unfold renamedEventsForPair
    dsimp only
    rw [if_neg (by decide : ¬(baseNameMDC maMod.uid ≠ baseNameMDC mbMod.uid))]
  have hcomp : compEventsForPair none none ⟨"X#1", "X#1", (1:ℚ)/2⟩ maMod mbMod 1 =
      ([], 1) := rfl
  have hch : changedEventsForPair none none none none none none 8 1
      ⟨"X#1", "X#1", (1:ℚ)/2⟩ maMod mbMod 1 =
      ([changedEvent none none none none none none 8 ((1:ℚ)/2) maMod mbMod 1], 2) := by
    unfold changedEventsForPair
    rw [if_pos hd]
  have hpair : pairEvents idxAc.modules idxBc.modules none none none none none none
      8 1 0 ⟨"X#1", "X#1", (1:ℚ)/2⟩ 1 =
      ([changedEvent none none none none none none 8 ((1:ℚ)/2) maMod mbMod 1], 2) := by
    unfold pairEvents
    rw [show lookupMod idxAc.modules (ModuleMapping.mk "X#1" "X#1" ((1:ℚ)/2)).from_uid =
        some maMod from rfl,
      show lookupMod idxBc.modules (ModuleMapping.mk "X#1" "X#1" ((1:ℚ)/2)).to_uid =
        some mbMod from rfl]
    simp only
    rw [if_neg (by norm_num : ¬((ModuleMapping.mk "X#1" "X#1" ((1:ℚ)/2)).score < 0))]
    simp only [hren, hcomp, hch]
    simp
  have hmap : mappedEvents idxAc.modules idxBc.modules none none none none none none
      8 1 0 [⟨"X#1", "X#1", (1:ℚ)/2⟩] 1 =
      ([changedEvent none none none none none none 8 ((1:ℚ)/2) maMod mbMod 1], 2) := by
    unfold mappedEvents
    simp only [hpair]
    unfold mappedEvents
    simp
  show (buildModuleLevelEvents idxAc idxBc none none alc 1 8 1 0 none none none none).1 = _
  unfold buildModuleLevelEvents
  simp only [show removedEvents idxAc.modules alc.removed 1 = ([], 1) from rfl,
    show addedEvents idxBc.modules alc.added 1 = ([], 1) from rfl,
    show alc.mapping = [⟨"X#1", "X#1", (1:ℚ)/2⟩] from rfl, hmap]
  simp

/-- C3 counterexample: at the concrete fixtures the emitted
`module_changed` event carries `delta_ratio = 1/2` (nested under
`counts`), yet the scorer's structural factor for it is 0, not 1/2. -/
theorem structural_factor_delta_ratio_counterexample :
    ∃ ev ∈ (buildModuleLevelEvents idxAc idxBc none none alc 1 8 1 0
        none none none none).1,
      ev.type = "module_changed" ∧
      getVal (dictOrEmpty (getVal ev.detail "counts")) "delta_ratio" =
        some (.vq (1/2)) ∧
      structuralFactor ev.type ev.detail = some 0 ∧ ((1:ℚ)/2) ≠ 0 := by
  rw [build_fixture_out]
  refine ⟨_, List.mem_singleton.mpr rfl, rfl, ?_, ?_, by norm_num⟩
  · show some (Val.vq (pyRound 6 (pairDeltaRatio maMod mbMod))) = some (Val.vq (1/2))
    rw [pairDeltaRatio_fixture, pyRound_half]
  · exact structuralFactor_changed _ rfl

/-! ### Lemmas about the overlap-driven split pass -/

theorem mem_firstKeysAux : ∀ (l seen : List String) (x : String),
    x ∈ firstKeysAux l seen ↔ x ∈ l ∧ x ∉ seen := by
  intro l
  induction l with
  | nil => intro seen x; simp [firstKeysAux]
  | cons a rest ih =>
    intro seen x
    unfold firstKeysAux
    by_cases ha : a ∈ seen
    · rw [if_pos ha, ih]
      constructor
      · intro ⟨h1, h2⟩; exact ⟨List.mem_cons_of_mem _ h1, h2⟩
      · intro ⟨h1, h2⟩
        rcases List.mem_cons.mp h1 with h | h
        · subst h; exact absurd ha h2
        · exact ⟨h, h2⟩
    · rw [if_neg ha]
      rw [List.mem_cons, ih]
      constructor
      · rintro (h | ⟨h1, h2⟩)
        · subst h; exact ⟨List.mem_cons_self _ _, ha⟩
        · refine ⟨List.mem_cons_of_mem _ h1, fun hx => h2 (List.mem_cons_of_mem _ hx)⟩
      · rintro ⟨h1, h2⟩
        rcases List.mem_cons.mp h1 with h | h
        · exact Or.inl h
        · by_cases hxa : x = a
          · exact Or.inl hxa
          · exact Or.inr ⟨h, fun hx => by
              rcases List.mem_cons.mp hx with h' | h'
              · exact hxa h'
              · exact h2 h'⟩

theorem mem_firstKeys (l : List String) (x : String) : x ∈ firstKeys l ↔ x ∈ l := by
  unfold firstKeys
  rw [mem_firstKeysAux]
  simp

theorem renameSection_type (modA modB : List Module) (cfg : DiffConfig) :
    ∀ (matched : List ModulePairScore) (n : Nat) (ev : ChangeEvent),
      ev ∈ (renameSection modA modB cfg matched n).1 → ev.type = "module_renamed" := by
  intro matched
  induction matched with
  | nil => intro n ev h; simp [renameSection] at h
  | cons p rest ih =>
    intro n ev h
    unfold renameSection at h
    split at h
    · rcases hma : lookupMod modA p.uid_a with _ | ma <;>
        rcases hmb : lookupMod modB p.uid_b with _ | mb <;> rw [hma, hmb] at h
      · exact ih n ev h
      · exact ih n ev h
      · exact ih n ev h
      · dsimp only at h
        split at h
        · rcases List.mem_cons.mp h with h | h
          · subst h; rfl
          · exact ih _ ev h
        · exact ih n ev h
    · exact ih n ev h

theorem mergeEventFor_type (modA modB : List Module) (cfg : DiffConfig)
    (qual : List ModulePairScore) (uidB : String) (n : Nat) (ev : ChangeEvent)
    (h : ev ∈ (mergeEventFor modA modB cfg qual uidB n).1) : ev.type = "module_merge" := by
  unfold mergeEventFor at h
  rcases hmb : lookupMod modB uidB with _ | mb <;> rw [hmb] at h
  · exact absurd h (List.not_mem_nil ev)
  · dsimp only at h
    split at h
    · exact absurd h (List.not_mem_nil ev)
    · split at h
      · exact absurd h (List.not_mem_nil ev)
      · split at h
        · rcases List.mem_singleton.mp h with h; subst h; rfl
        · exact absurd h (List.not_mem_nil ev)

theorem mergeSection_type (modA modB : List Module) (cfg : DiffConfig)
    (qual : List ModulePairScore) :
    ∀ (keys : List String) (n : Nat) (ev : ChangeEvent),
      ev ∈ (mergeSection modA modB cfg qual keys n).1 → ev.type = "module_merge" := by
  intro keys
  induction keys with
  | nil => intro n ev h; simp [mergeSection] at h
  | cons k rest ih =>
    intro n ev h
    unfold mergeSection at h
    simp only at h
    rcases List.mem_append.mp h with h | h
    · exact mergeEventFor_type modA modB cfg qual k n ev h
    · exact ih _ ev h

theorem mem_splitEventFor (modA modB : List Module) (cfg : DiffConfig)
    (qual : List ModulePairScore) (uidA : String) (n : Nat) (ev : ChangeEvent)
    (h : ev ∈ (splitEventFor modA modB cfg qual uidA n).1) :
    ∃ ma, lookupMod modA uidA = some ma ∧
      cfg.coverage_threshold ≤ splitCoverage modB qual uidA ma ∧
      ev.type = "module_split" ∧
      getVal ev.detail "from_module_uid" = some (.vs ma.uid) ∧
      ev.confidence = pyRound 4 (min (85/100) (max (3/10) (splitCoverage modB qual uidA ma))) := by
  unfold splitEventFor at h
  rcases hma : lookupMod modA uidA with _ | ma <;> rw [hma] at h
  · exact absurd h (List.not_mem_nil ev)
  · dsimp only at h
    split at h
    · exact absurd h (List.not_mem_nil ev)
    · split at h
      · exact absurd h (List.not_mem_nil ev)
      · split at h
        · rename_i hcov
          rcases List.mem_singleton.mp h with h
          subst h
          exact ⟨ma, rfl, hcov, rfl, rfl, rfl⟩
        · exact absurd h (List.not_mem_nil ev)

theorem splitEventFor_emits (modA modB : List Module) (cfg : DiffConfig)
    (qual : List ModulePairScore) (uidA : String) (n : Nat) (ma : Module)
    (hma : lookupMod modA uidA = some ma)
    (h2 : 2 ≤ (splitPairs qual uidA).length)
    (ht2 : 2 ≤ (splitTargets modB qual uidA).length)
    (hcov : cfg.coverage_threshold ≤ splitCoverage modB qual uidA ma) :
    ∃ ev ∈ (splitEventFor modA modB cfg qual uidA n).1,
      ev.type = "module_split" ∧
      getVal ev.detail "from_module_uid" = some (.vs ma.uid) := by
  unfold splitEventFor
  rw [hma]
  dsimp only
  rw [if_neg (by omega), if_neg (by omega), if_pos hcov]
  exact ⟨_, List.mem_singleton.mpr rfl, rfl, rfl⟩

theorem mem_splitSection_elim (modA modB : List Module) (cfg : DiffConfig)
    (qual : List ModulePairScore) :
    ∀ (keys : List String) (n : Nat) (ev : ChangeEvent),
      ev ∈ (splitSection modA modB cfg qual keys n).1 →
      ∃ k ∈ keys, ∃ m, ev ∈ (splitEventFor modA modB cfg qual k m).1 := by
  intro keys
  induction keys with
  | nil => intro n ev h; simp [splitSection] at h
  | cons k rest ih =>
    intro n ev h
    unfold splitSection at h
    simp only at h
    rcases List.mem_append.mp h with h | h
    · exact ⟨k, List.mem_cons_self _ _, n, h⟩
    · obtain ⟨k', hk', m, hm⟩ := ih _ ev h
      exact ⟨k', List.mem_cons_of_mem _ hk', m, hm⟩

theorem mem_splitSection_intro (modA modB : List Module) (cfg : DiffConfig)
    (qual : List ModulePairScore) (P : ChangeEvent → Prop) :
    ∀ (keys : List String) (n : Nat) (k : String), k ∈ keys →
      (∀ m, ∃ ev ∈ (splitEventFor modA modB cfg qual k m).1, P ev) →
      ∃ ev ∈ (splitSection modA modB cfg qual keys n).1, P ev := by
  intro keys
  induction keys with
  | nil => intro n k h; simp at h
  | cons k' rest ih =>
    intro n k hk hall
    unfold splitSection
    simp only
    rcases List.mem_cons.mp hk with h | h
    · subst h
      obtain ⟨ev, hev, hP⟩ := hall n
      exact ⟨ev, List.mem_append.mpr (Or.inl hev), hP⟩
    · obtain ⟨ev, hev, hP⟩ := ih _ k h hall
      exact ⟨ev, List.mem_append.mpr (Or.inr hev), hP⟩

theorem mem_inferModuleEvents_elim (a b : Snapshot) (cfg : DiffConfig) (n : Nat)
    (ev : ChangeEvent) (h : ev ∈ (inferModuleEvents a b cfg n).1) :
    ev.type = "module_renamed" ∨ ev.type = "module_merge" ∨
    ∃ k ∈ firstKeys (((alignModules a.modules b.modules).filter
        (fun s => cfg.split_merge_overlap ≤ s.overlap)).map (·.uid_a)), ∃ m,
      ev ∈ (splitEventFor a.modules b.modules cfg
        ((alignModules a.modules b.modules).filter
          (fun s => cfg.split_merge_overlap ≤ s.overlap)) k m).1 := by
  unfold inferModuleEvents at h
  simp only at h
  rw [List.append_assoc] at h
  rcases List.mem_append.mp h with h | h
  · exact Or.inl (renameSection_type _ _ _ _ _ ev h)
  · rcases List.mem_append.mp h with h | h
    · exact Or.inr (Or.inr (mem_splitSection_elim _ _ _ _ _ _ ev h))
    · exact Or.inr (Or.inl (mergeSection_type _ _ _ _ _ _ ev h))

theorem mem_inferModuleEvents_intro (a b : Snapshot) (cfg : DiffConfig) (n : Nat)
    (P : ChangeEvent → Prop) (k : String)
    (hk : k ∈ firstKeys (((alignModules a.modules b.modules).filter
        (fun s => cfg.split_merge_overlap ≤ s.overlap)).map (·.uid_a)))
    (hall : ∀ m, ∃ ev ∈ (splitEventFor a.modules b.modules cfg
        ((alignModules a.modules b.modules).filter
          (fun s => cfg.split_merge_overlap ≤ s.overlap)) k m).1, P ev) :
    ∃ ev ∈ (inferModuleEvents a b cfg n).1, P ev := by
  unfold inferModuleEvents
  simp only
  obtain ⟨ev, hev, hP⟩ := mem_splitSection_intro a.modules b.modules cfg _ P _ _ k hk hall
  refine ⟨ev, ?_, hP⟩
  rw [List.append_assoc]
  exact List.mem_append.mpr (Or.inr (List.mem_append.mpr (Or.inl hev)))

/-- The qualifying score list of the overlap-driven pass. -/
def qualOf (a b : Snapshot) (cfg : DiffConfig) : List ModulePairScore :=
  (alignModules a.modules b.modules).filter (fun s => cfg.split_merge_overlap ≤ s.overlap)

/-- The file-union of ALL qualifying candidates of an A-uid — the union
the claim speaks of (the code uses the top five only; the two coincide
when there are at most five candidates). -/
def allSplitUnion (modB : List Module) (qual : List ModulePairScore) (uidA : String) :
    Finset String :=
  (splitPairs qual uidA).foldl (fun acc p =>
    match lookupMod modB p.uid_b with
    | some mb => acc ∪ mb.files
    | none => acc) ∅

/-- Coverage of the A-module by the union of ALL qualifying candidates. -/
def allSplitCoverage (modB : List Module) (qual : List ModulePairScore) (uidA : String)
    (ma : Module) : ℚ :=
  if ma.files ≠ ∅ then ((ma.files ∩ allSplitUnion modB qual uidA).card : ℚ) / ma.files.card
  else 0

theorem splitPairsSorted_perm (qual : List ModulePairScore) (uidA : String)
    (h5 : (splitPairs qual uidA).length ≤ 5) :
    List.Perm (splitPairsSorted qual uidA) (splitPairs qual uidA) := by
  unfold splitPairsSorted
  rw [List.take_of_length_le
    (by rw [(List.perm_insertionSort scoreGE _).length_eq]; exact h5)]
  exact List.perm_insertionSort scoreGE _

theorem splitUnion_eq_all (modB : List Module) (qual : List ModulePairScore)
    (uidA : String) (h5 : (splitPairs qual uidA).length ≤ 5) :
    splitUnion modB qual uidA = allSplitUnion modB qual uidA := by
  unfold splitUnion allSplitUnion
  apply (splitPairsSorted_perm qual uidA h5).foldl_eq'
  intro x _ y _ z
  rcases lookupMod modB x.uid_b with _ | mbx <;> rcases lookupMod modB y.uid_b with _ | mby <;>
    simp [Finset.union_assoc, Finset.union_comm, Finset.union_left_comm]

theorem splitCoverage_eq_all (modB : List Module) (qual : List ModulePairScore)
    (uidA : String) (ma : Module) (h5 : (splitPairs qual uidA).length ≤ 5) :
    splitCoverage modB qual uidA ma = allSplitCoverage modB qual uidA ma := by
  unfold splitCoverage allSplitCoverage
  rw [splitUnion_eq_all modB qual uidA h5]

theorem splitTargets_len_all (modB : List Module) (qual : List ModulePairScore)
    (uidA : String) (h5 : (splitPairs qual uidA).length ≤ 5) :
    (splitTargets modB qual uidA).length =
      ((splitPairs qual uidA).filterMap (fun p => lookupMod modB p.uid_b)).length := by
  unfold splitTargets
  exact ((splitPairsSorted_perm qual uidA h5).filterMap _).length_eq

/-- C7 (amended): in the overlap-driven pass, for an A-module with at
least two and AT MOST FIVE qualifying B-candidates (the code only
examines the top five, ranked by overlap/jaccard/intersection), at least
two of which resolve in B, a `module_split` event is emitted iff the
candidates' file-union covers at least `coverage_threshold` of the
A-module's files, and the event's confidence is the coverage clamped to
`[0.3, 0.85]` AND THEN ROUNDED to 4 decimal digits. -/
theorem split_event_topfive_emission (a b : Snapshot) (cfg : DiffConfig) (n : Nat)
    (uid : String) (ma : Module)
    (hma : lookupMod a.modules uid = some ma)
    (h2 : 2 ≤ (splitPairs (qualOf a b cfg) uid).length)
    (h5 : (splitPairs (qualOf a b cfg) uid).length ≤ 5)
    (ht2 : 2 ≤ ((splitPairs (qualOf a b cfg) uid).filterMap
        (fun p => lookupMod b.modules p.uid_b)).length) :
    ((∃ ev ∈ (inferModuleEvents a b cfg n).1, ev.type = "module_split" ∧
        getVal ev.detail "from_module_uid" = some (.vs uid)) ↔
      cfg.coverage_threshold ≤ allSplitCoverage b.modules (qualOf a b cfg) uid ma) ∧
    (∀ ev ∈ (inferModuleEvents a b cfg n).1, ev.type = "module_split" →
        getVal ev.detail "from_module_uid" = some (.vs uid) →
        ev.confidence = pyRound 4 (min (85/100) (max (3/10)
          (allSplitCoverage b.modules (qualOf a b cfg) uid ma)))) := by
  have hqual : (alignModules a.modules b.modules).filter
      (fun s => cfg.split_merge_overlap ≤ s.overlap) = qualOf a b cfg := rfl
  have hcov_eq : splitCoverage b.modules (qualOf a b cfg) uid ma =
      allSplitCoverage b.modules (qualOf a b cfg) uid ma :=
    splitCoverage_eq_all _ _ _ _ h5
  have hanalyse : ∀ ev ∈ (inferModuleEvents a b cfg n).1, ev.type = "module_split" →
      getVal ev.detail "from_module_uid" = some (.vs uid) →
      cfg.coverage_threshold ≤ allSplitCoverage b.modules (qualOf a b cfg) uid ma ∧
      ev.confidence = pyRound 4 (min (85/100) (max (3/10)
        (allSplitCoverage b.modules (qualOf a b cfg) uid ma))) := by
    intro ev hev htype hfrom
    rcases mem_inferModuleEvents_elim a b cfg n ev hev with h | h | ⟨k, hk, m, hm⟩
    · rw [htype] at h; exact absurd h (by decide)
    · rw [htype] at h; exact absurd h (by decide)
    · rw [hqual] at hm
      obtain ⟨mak, hmak, hcov, _, hfromk, hconf⟩ :=
        mem_splitEventFor a.modules b.modules cfg (qualOf a b cfg) k m ev hm
      have hkuid : k = uid := by
        rw [hfromk] at hfrom
        have h1 := Option.some.inj hfrom
        have h2' : mak.uid = uid := by injection h1
        rw [← lookupMod_uid a.modules k mak hmak, h2']
      subst hkuid
      rw [hma] at hmak
      have hmaeq : mak = ma := Option.some.inj hmak.symm
      subst hmaeq
      rw [hcov_eq] at hcov hconf
      exact ⟨hcov, hconf⟩
  constructor
  · constructor
    · intro ⟨ev, hev, htype, hfrom⟩
      exact (hanalyse ev hev htype hfrom).1
    · intro hcov
      have hkeys : uid ∈ firstKeys (((alignModules a.modules b.modules).filter
          (fun s => cfg.split_merge_overlap ≤ s.overlap)).map (·.uid_a)) := by
        rw [mem_firstKeys, hqual]
        have hne : splitPairs (qualOf a b cfg) uid ≠ [] := by
          intro hnil
          rw [hnil] at h2
          simp at h2
        obtain ⟨s, hs⟩ := List.exists_mem_of_ne_nil _ hne
        have hs' := hs
        unfold splitPairs at hs'
        rw [List.mem_filter] at hs'
        refine List.mem_map.mpr ⟨s, hs'.1, ?_⟩
        have := hs'.2
        simpa using this
      apply mem_inferModuleEvents_intro a b cfg n _ uid hkeys
      intro m
      have hma' : lookupMod a.modules uid = some ma := hma
      have ht2' : 2 ≤ (splitTargets b.modules (qualOf a b cfg) uid).length := by
        rw [splitTargets_len_all b.modules (qualOf a b cfg) uid h5]
        exact ht2
      have hcov' : cfg.coverage_threshold ≤
          splitCoverage b.modules (qualOf a b cfg) uid ma := by rw [hcov_eq]; exact hcov
      obtain ⟨ev, hev, hty, hfrom⟩ := splitEventFor_emits a.modules b.modules cfg
        (qualOf a b cfg) uid m ma hma' h2 ht2' hcov'
      refine ⟨ev, ?_, hty, ?_⟩
      · rw [hqual]; exact hev
      · rw [hfrom, lookupMod_uid a.modules uid ma hma]
  · intro ev hev htype hfrom
    exact (hanalyse ev hev htype hfrom).2

/-- Fixture: an A-module with six files. -/
def mA7 : Module := ⟨"M#1", "M", {"f1", "f2", "f3", "f4", "f5", "f6"}, 6⟩

/-- Fixture: a B-module holding half of `mA7`'s files. -/
def mB71 : Module := ⟨"P#1", "P", {"f1", "f2", "f3"}, 3⟩

/-- Fixture: a B-module holding two more of `mA7`'s files. -/
def mB72 : Module := ⟨"Q#1", "Q", {"f4", "f5"}, 2⟩

def snapA7 : Snapshot := ⟨⟨[mA7], [], [], []⟩, ⟨[], []⟩, ∅, [mA7], [], []⟩

def snapB7 : Snapshot := ⟨⟨[mB71, mB72], [], [], []⟩, ⟨[], []⟩, ∅, [mB71, mB72], [], []⟩

/-- A config whose rename threshold is unreachable, isolating the
split/merge pass; the other thresholds keep their defaults. -/
def cfg7 : DiffConfig := { rename_overlap := 2 }

def s71 : ModulePairScore := ⟨"M#1", "P#1", 1, 1/2, 3⟩

def s72 : ModulePairScore := ⟨"M#1", "Q#1", 1, 1/3, 2⟩

theorem ov71 : overlapDC mA7.files mB71.files = 1 := by
  unfold overlapDC
  rw [if_neg (show ¬(mA7.files = ∅ ∨ mB71.files = ∅) from by decide)]
  dsimp only
  rw [show (mA7.files ∩ mB71.files).card = 3 from by decide,
    show min mA7.files.card mB71.files.card = 3 from by decide,
    if_pos (show (0:ℕ) < 3 from by decide)]
  norm_num

theorem jac71 : jaccardDC mA7.files mB71.files = 1/2 := by
  unfold jaccardDC
  rw [if_neg (show ¬(mA7.files = ∅ ∧ mB71.files = ∅) from by decide),
    if_neg (show ¬(mA7.files = ∅ ∨ mB71.files = ∅) from by decide)]
  dsimp only
  rw [show (mA7.files ∩ mB71.files).card = 3 from by decide,
    show (mA7.files ∪ mB71.files).card = 6 from by decide,
    if_pos (show (0:ℕ) < 6 from by decide)]
  norm_num

theorem ov72 : overlapDC mA7.files mB72.files = 1 := by
  unfold overlapDC
  rw [if_neg (show ¬(mA7.files = ∅ ∨ mB72.files = ∅) from by decide)]
  dsimp only
  rw [show (mA7.files ∩ mB72.files).card = 2 from by decide,
    show min mA7.files.card mB72.files.card = 2 from by decide,
    if_pos (show (0:ℕ) < 2 from by decide)]
  norm_num

theorem jac72 : jaccardDC mA7.files mB72.files = 1/3 := by
  unfold jaccardDC
  rw [if_neg (show ¬(mA7.files = ∅ ∧ mB72.files = ∅) from by decide),
    if_neg (show ¬(mA7.files = ∅ ∨ mB72.files = ∅) from by decide)]
  dsimp only
  rw [show (mA7.files ∩ mB72.files).card = 2 from by decide,
    show (mA7.files ∪ mB72.files).card = 6 from by decide,
    if_pos (show (0:ℕ) < 6 from by decide)]
  norm_num

theorem sort_s71_s72 : List.insertionSort scoreGE [s71, s72] = [s71, s72] := by
  simp only [List.insertionSort, List.orderedInsert]
  rw [if_pos (show scoreGE s71 s72 from by
    unfold scoreGE
    exact Or.inr ⟨rfl, Or.inl (by norm_num [s71, s72])⟩)]

theorem scores7 : alignModules snapA7.modules snapB7.modules = [s71, s72] := by
  unfold alignModules
  dsimp only
  rw [show snapA7.modules = [mA7] from rfl, show snapB7.modules = [mB71, mB72] from rfl]
  simp only [List.flatMap_cons, List.flatMap_nil, List.append_nil,
    List.filterMap_cons, List.filterMap_nil]
  rw [if_neg (fun h => absurd h.1 (show ¬(mA7.files ∩ mB71.files).card = 0 from by decide)),
    if_neg (fun h => absurd h.1 (show ¬(mA7.files ∩ mB72.files).card = 0 from by decide))]
  dsimp only
  rw [ov71, jac71, ov72, jac72,
    show (mA7.files ∩ mB71.files).card = 3 from by decide,
    show (mA7.files ∩ mB72.files).card = 2 from by decide]
  exact sort_s71_s72

theorem qual7 : qualOf snapA7 snapB7 cfg7 = [s71, s72] := by
  unfold qualOf
  rw [scores7]
  simp only [List.filter_cons, List.filter_nil, decide_eq_true_eq]
  rw [if_pos (show cfg7.split_merge_overlap ≤ s71.overlap from by norm_num [cfg7, s71]),
    if_pos (show cfg7.split_merge_overlap ≤ s72.overlap from by norm_num [cfg7, s72])]

theorem sorted7 : splitPairsSorted [s71, s72] "M#1" = [s71, s72] := by
  unfold splitPairsSorted
  rw [show splitPairs [s71, s72] "M#1" = [s71, s72] from rfl, sort_s71_s72]
  rfl

theorem targets7 : 2 ≤ (splitTargets snapB7.modules [s71, s72] "M#1").length := by
  unfold splitTargets
  rw [sorted7]
  decide

theorem union7 : splitUnion snapB7.modules [s71, s72] "M#1" = (∅ ∪ mB71.files) ∪ mB72.files := by
  unfold splitUnion
  rw [sorted7]
  rfl

theorem cov_split7 : splitCoverage snapB7.modules [s71, s72] "M#1" mA7 = 5/6 := by
  unfold splitCoverage
  rw [if_pos (show mA7.files ≠ ∅ from by decide), union7,
    show (mA7.files ∩ ((∅ ∪ mB71.files) ∪ mB72.files)).card = 5 from by decide,
    show mA7.files.card = 6 from by decide]
  norm_num

theorem cov_all7 :
    allSplitCoverage snapB7.modules (qualOf snapA7 snapB7 cfg7) "M#1" mA7 = 5/6 := by
  rw [qual7, ← splitCoverage_eq_all snapB7.modules [s71, s72] "M#1" mA7 (by decide)]
  exact cov_split7

theorem conf7 : pyRound 4 (min (85/100) (max (3/10) ((5:ℚ)/6))) = 8333/10000 := by
  rw [max_eq_right (by norm_num : (3:ℚ)/10 ≤ 5/6),
    min_eq_right (by norm_num : (5:ℚ)/6 ≤ 85/100)]
  unfold pyRound roundHalfEven
  dsimp only
  rw [show ⌊(5:ℚ)/6 * 10 ^ 4⌋ = 8333 from by norm_num,
    if_pos (show (5:ℚ)/6 * 10 ^ 4 - ((8333:ℤ):ℚ) < 1/2 from by norm_num)]
  norm_num

/-- C7 witness: the concrete split fixture satisfies the amended
theorem's hypotheses, and the theorem's conclusion holds there. -/
theorem split_event_topfive_emission_witness :
    2 ≤ (splitPairs (qualOf snapA7 snapB7 cfg7) "M#1").length ∧
    (((∃ ev ∈ (inferModuleEvents snapA7 snapB7 cfg7 0).1, ev.type = "module_split" ∧
        getVal ev.detail "from_module_uid" = some (.vs "M#1")) ↔
      cfg7.coverage_threshold ≤
        allSplitCoverage snapB7.modules (qualOf snapA7 snapB7 cfg7) "M#1" mA7) ∧
    (∀ ev ∈ (inferModuleEvents snapA7 snapB7 cfg7 0).1, ev.type = "module_split" →
        getVal ev.detail "from_module_uid" = some (.vs "M#1") →
        ev.confidence = pyRound 4 (min (85/100) (max (3/10)
          (allSplitCoverage snapB7.modules (qualOf snapA7 snapB7 cfg7) "M#1" mA7))))) :=
  ⟨by rw [qual7]; decide,
    split_event_topfive_emission snapA7 snapB7 cfg7 0 "M#1" mA7 rfl
      (by rw [qual7]; decide) (by rw [qual7]; decide) (by rw [qual7]; decide)⟩

/-- C7 counterexample: module `M#1` `{f1..f6}` splits into `P#1`
`{f1,f2,f3}` and `Q#1` `{f4,f5}`; the candidates' union covers `5/6` of
`M#1`, which is `≥ 0.8` and inside the `[0.3, 0.85]` clamp, so per the
claim the event's confidence should equal `5/6`; the code emits
`round(5/6, 4) = 0.8333 ≠ 5/6` (`infer_module_events` rounds the clamped
coverage to 4 decimal digits). -/
theorem split_confidence_rounding_counterexample :
    allSplitCoverage snapB7.modules (qualOf snapA7 snapB7 cfg7) "M#1" mA7 = 5/6 ∧
    min (85/100 : ℚ) (max (3/10) (5/6)) = 5/6 ∧
    (∃ ev ∈ (inferModuleEvents snapA7 snapB7 cfg7 0).1,
      ev.type = "module_split" ∧
      getVal ev.detail "from_module_uid" = some (.vs "M#1") ∧
      ev.confidence = 8333/10000) ∧
    (8333/10000 : ℚ) ≠ 5/6 := by
  refine ⟨cov_all7, ?_, ?_, by norm_num⟩
  · rw [max_eq_right (by norm_num : (3:ℚ)/10 ≤ 5/6),
      min_eq_right (by norm_num : (5:ℚ)/6 ≤ 85/100)]
  · apply mem_inferModuleEvents_intro snapA7 snapB7 cfg7 0 _ "M#1"
    · rw [show (alignModules snapA7.modules snapB7.modules).filter
          (fun s => cfg7.split_merge_overlap ≤ s.overlap) = [s71, s72] from qual7]
      decide
    · intro m
      rw [show (alignModules snapA7.modules snapB7.modules).filter
          (fun s => cfg7.split_merge_overlap ≤ s.overlap) = [s71, s72] from qual7]
      obtain ⟨ev, hev, hty, hfrom⟩ := splitEventFor_emits snapA7.modules snapB7.modules cfg7
        [s71, s72] "M#1" m mA7 rfl (by decide) targets7
        (by rw [cov_split7]; show (8:ℚ)/10 ≤ 5/6; norm_num)
      refine ⟨ev, hev, hty, ?_, ?_⟩
      · rw [hfrom]
        rfl
      · obtain ⟨ma', hma', _, _, _, hconf⟩ := mem_splitEventFor snapA7.modules snapB7.modules
          cfg7 [s71, s72] "M#1" m ev hev
        have hmaeq : ma' = mA7 := Option.some.inj (hma'.symm.trans
          (show lookupMod snapA7.modules "M#1" = some mA7 from rfl))
        subst hmaeq
        rw [hconf, cov_split7]
        exact conf7

end ArcRN
